import Mathlib

/-!
Verification development for the Shift-Manager repository (`turn_manager.py`).

The algorithmic core of the program — calendar expansion, absence testing,
the hour ledger, candidate ranking, roster generation (`ScheduleTab.generate_schedule`),
roster repair (`ScheduleTab.update_schedule`), the statistics aggregation
(`StatsTab.show_stats`) and the carry-over recompute
(`DatabaseManager.update_employee_statistics`) — is embedded below as
executable Lean definitions.  Python dictionaries are modelled as association
lists in insertion order, Python machine integers as `Int`/`Nat` (Python
integers are unbounded, so no modular wrap is needed), `datetime.date` as a
year/month/day triple with lexicographic order, and the database effects of the
code as explicit values threaded through the state.
-/

set_option maxRecDepth 40000

namespace ShiftManager

/-- Calendar date as handled by the program via `datetime.date`. -/
structure Date where
  year : Nat
  month : Nat
  day : Nat
deriving DecidableEq, Repr

/-- Date comparison `a <= b`, lexicographic as for Python `datetime.date`. -/
def dateLe (a b : Date) : Bool :=
  Nat.blt a.year b.year ||
    (Nat.beq a.year b.year &&
      (Nat.blt a.month b.month ||
        (Nat.beq a.month b.month && Nat.ble a.day b.day)))

/-- Date comparison `a < b`, lexicographic as for Python `datetime.date`. -/
def dateLt (a b : Date) : Bool :=
  Nat.blt a.year b.year ||
    (Nat.beq a.year b.year &&
      (Nat.blt a.month b.month ||
        (Nat.beq a.month b.month && Nat.blt a.day b.day)))

/-- Gregorian leap-year rule implemented by Python's `datetime`. -/
def isLeapYear (y : Nat) : Bool :=
  y % 4 == 0 && (y % 100 != 0 || y % 400 == 0)

/-- Number of days of a month.  The source computes this as
`(first day of next month) - (first day of this month)` using `datetime`
subtraction; for valid months this is the Gregorian day count. -/
def daysInMonth (y m : Nat) : Nat :=
  if m == 2 then (if isLeapYear y then 29 else 28)
  else if m == 4 || m == 6 || m == 9 || m == 11 then 30
  else 31

/-- Last calendar day of a month (`next_month - datetime.timedelta(days=1)`). -/
def lastDayOfMonth (y m : Nat) : Date := ⟨y, m, daysInMonth y m⟩

/-- The closed set of shift categories used throughout the program. -/
inductive ShiftType
  | Morning
  | Afternoon
  | Night
deriving DecidableEq, Repr

/-- The fixed declared order `self.shift_types = ["Morning", "Afternoon", "Night"]`. -/
def shiftTypesList : List ShiftType := [.Morning, .Afternoon, .Night]

/-- First-match lookup in an association list; models Python `dict` reads
(`d[k]` after a membership test, or `d.get(k)`), keys being unique in a dict. -/
def alookup {κ β : Type} [DecidableEq κ] : List (κ × β) → κ → Option β
  | [], _ => none
  | p :: ps, k => if p.1 = k then some p.2 else alookup ps k

/-- Preference mapping stored per employee (JSON object keyed by shift name). -/
abbrev Prefs := List (ShiftType × Int)

/-- The read `preferences.get(shift, 1)`: default weight 1 when unlisted. -/
def prefGet (p : Prefs) (s : ShiftType) : Int :=
  (alookup p s).getD 1

/-- One absence interval, inclusive on both ends. -/
structure Absence where
  employee_id : Nat
  start_date : Date
  end_date : Date
deriving DecidableEq, Repr

/-- The helper `is_employee_absent` of `generate_schedule`: scan the absences of
the employee and test `start <= date <= end`.  (`update_schedule` contains the
identical helper `is_absent`; grouping by employee first does not change the
boolean result, only the scan order, so one definition serves both.) -/
def is_employee_absent (absences : List Absence) (emp_id : Nat) (d : Date) : Bool :=
  absences.any fun a =>
    a.employee_id == emp_id && dateLe a.start_date d && dateLe d a.end_date

/-- Festivity overrides for a month: date to `is_working_day` flag, as returned
by `get_festivities_for_month`. -/
abbrev Festivities := List (Date × Bool)

/-- Lightweight employee object built inside `generate_schedule` (`class Emp`);
`assigned_hours` starts at 0 there and tracks hours assigned in this pass. -/
structure Emp where
  id : Nat
  name : String
  target_hours : Int
  accumulated_hours : Int
  preferences : Prefs
  assigned_hours : Int
deriving DecidableEq, Repr

/-- The method `Emp.remaining_hours`. -/
def Emp.remaining_hours (e : Emp) : Int :=
  (e.target_hours - e.accumulated_hours) - e.assigned_hours

/-- The ranking key `sort_key` of `generate_schedule`: `(preference, remaining_hours)`. -/
def sort_key (shift : ShiftType) (e : Emp) : Int × Int :=
  (prefGet e.preferences shift, e.remaining_hours)

/-- Strict lexicographic comparison of sort keys (Python tuple `<`). -/
def keyLt (a b : Int × Int) : Bool :=
  decide (a.1 < b.1) || (a.1 == b.1 && decide (a.2 < b.2))

/-- Insert an element into a descending-sorted list after every element whose
key is greater than or equal to its key. -/
def insertDesc {α : Type} (key : α → Int × Int) (x : α) : List α → List α
  | [] => [x]
  | y :: ys => if keyLt (key y) (key x) then x :: y :: ys else y :: insertDesc key x ys

/-- Model of `sorted(l, key=key, reverse=True)`: Python's sort is stable, and
stable descending sorting is exactly successive `insertDesc` insertion of the
input elements from left to right. -/
def sortedDesc {α : Type} (key : α → Int × Int) (l : List α) : List α :=
  l.foldl (fun acc x => insertDesc key x acc) []

/-- Staffing warnings collected in `warnings_list`; the source renders these as
the strings "No eligible employees for {shift} on {date}" and
"Not enough employees for {shift} on {date}; re-using top candidate". -/
inductive Warning
  | noEligible (shift : ShiftType) (d : Date)
  | underStaffed (shift : ShiftType) (d : Date)
deriving DecidableEq, Repr

/-- One `add_shift(date_str, shift, employee_id)` database insert issued by the
generator: a row of the `shifts` table. -/
structure DbShift where
  shift_date : Date
  shift_type : ShiftType
  employee_id : Nat
deriving DecidableEq, Repr

/-- Mutable state threaded through the generation loops: the employee objects
(hour ledger), the warnings, and the database inserts performed so far. -/
structure GenState where
  employees : List Emp
  warnings_list : List Warning
  db_shifts : List DbShift
deriving DecidableEq, Repr

/-- The statement `e.assigned_hours += duration`: every employee object with
this id is updated (ids are unique in the database, so exactly one). -/
def creditAssigned (dur : Int) (employees : List Emp) (eid : Nat) : List Emp :=
  employees.map fun e =>
    if e.id = eid then { e with assigned_hours := e.assigned_hours + dur } else e

/-- The `for e in assigned:` loop of `generate_schedule`: credit the ledger,
insert the DB record, and collect the assigned name, per occurrence. -/
def commitAssigned (shift_durations : ShiftType → Int) (d : Date) (shift : ShiftType)
    (st : GenState) (assigned : List Emp) : GenState × List String :=
  let dur := shift_durations shift
  let ids := assigned.map Emp.id
  ({ st with
      employees := ids.foldl (creditAssigned dur) st.employees,
      db_shifts := st.db_shifts ++ ids.map fun i => ⟨d, shift, i⟩ },
   assigned.map Emp.name)

/-- Body of the per-shift-type loop of `generate_schedule` for one date:
eligibility filter, empty-eligible warning, ranking, take/pad, commit.
Returns the slot's assigned names next to the new state; returns `none`
exactly where the source would raise an index error at `sorted_candidates[0]`. -/
def processShift (absences : List Absence) (staffing : ShiftType → Nat)
    (shift_durations : ShiftType → Int) (d : Date) (shift : ShiftType)
    (st : GenState) : Option (GenState × List String) :=
  let needed := staffing shift
  let eligible := st.employees.filter fun e => !(is_employee_absent absences e.id d)
  if eligible.isEmpty then
    some ({ st with warnings_list := st.warnings_list ++ [.noEligible shift d] }, [])
  else
    let sorted_candidates := sortedDesc (sort_key shift) eligible
    if sorted_candidates.length < needed then
      match sorted_candidates with
      | [] => none
      | top :: rest =>
        let assigned :=
          (top :: rest) ++ List.replicate (needed - (top :: rest).length) top
        some (commitAssigned shift_durations d shift
          { st with warnings_list := st.warnings_list ++ [.underStaffed shift d] }
          assigned)
    else
      some (commitAssigned shift_durations d shift st (sorted_candidates.take needed))

/-- One day's slot map in the generated schedule: shift type to assigned names,
in the declared shift order (a non-working festivity day gets the empty map). -/
abbrev GenDay := List (ShiftType × List String)

/-- Body of the per-date loop of `generate_schedule`: skip non-working
festivities, otherwise process the three shift types in order. -/
def processDay (absences : List Absence) (staffing : ShiftType → Nat)
    (shift_durations : ShiftType → Int) (festivities : Festivities)
    (d : Date) (st : GenState) : Option (GenState × (Date × GenDay)) :=
  if alookup festivities d == some false then
    some (st, (d, []))
  else
    match shiftTypesList.foldlM
        (fun (acc : GenState × GenDay) shift =>
          match processShift absences staffing shift_durations d shift acc.1 with
          | some (st', names) => some (st', acc.2 ++ [(shift, names)])
          | none => none)
        (st, ([] : GenDay)) with
    | some (st', slots) => some (st', (d, slots))
    | none => none

/-- The date loop `for day in range(1, days + 1)` of `generate_schedule`. -/
def generateDays (absences : List Absence) (staffing : ShiftType → Nat)
    (shift_durations : ShiftType → Int) (festivities : Festivities)
    (year month : Nat) (st : GenState) :
    Option (GenState × List (Date × GenDay)) :=
  (List.range (daysInMonth year month)).foldlM
    (fun (acc : GenState × List (Date × GenDay)) i =>
      match processDay absences staffing shift_durations festivities
          ⟨year, month, i + 1⟩ acc.1 with
      | some (st', entry) => some (st', acc.2 ++ [entry])
      | none => none)
    (st, ([] : List (Date × GenDay)))

/-- The ways `generate_schedule` can fail to produce a roster: the early return
when no employees exist, and the (unreachable) index error at
`sorted_candidates[0]`. -/
inductive GenAbort
  | noEmployees
  | indexError
deriving DecidableEq, Repr

/-- Result of a completed generation: the schedule mapping, the warnings, the
database inserts performed, and the final hour ledger. -/
structure GenResult where
  schedule : List (Date × GenDay)
  warnings_list : List Warning
  db_shifts : List DbShift
  employees : List Emp
deriving DecidableEq, Repr

/-- The Roster Generator `ScheduleTab.generate_schedule`, with its database
effects (`add_shift` inserts) made explicit in the result.  Employee objects
are rebuilt with `assigned_hours = 0` exactly as `Emp(e)` does. -/
def generate_schedule (year month : Nat) (employees_data : List Emp)
    (staffing : ShiftType → Nat) (shift_durations : ShiftType → Int)
    (absences : List Absence) (festivities : Festivities) :
    Except GenAbort GenResult :=
  if employees_data.isEmpty then .error .noEmployees
  else
    let employees := employees_data.map fun e => { e with assigned_hours := 0 }
    match generateDays absences staffing shift_durations festivities year month
        ⟨employees, [], []⟩ with
    | some (st, sched) => .ok ⟨sched, st.warnings_list, st.db_shifts, st.employees⟩
    | none => .error .indexError

/-- Total duration of the generator's DB inserts carrying a given employee id. -/
def insertedHours (shift_durations : ShiftType → Int) (dbs : List DbShift)
    (eid : Nat) : Int :=
  ((dbs.filter fun r => r.employee_id == eid).map
    fun r => shift_durations r.shift_type).sum

/-- One record of the existing roster as organized by `update_schedule`:
the tuple `(shift_id, emp_id, emp_name)`. -/
structure SRec where
  shift_id : Nat
  emp_id : Nat
  emp_name : String
deriving DecidableEq, Repr

/-- Employee data held in `emp_map` during `update_schedule`. -/
structure EmpData where
  name : String
  target_hours : Int
  accumulated_hours : Int
  preferences : Prefs
  assigned_hours : Int
deriving DecidableEq, Repr

/-- The `emp_map` dictionary, in insertion (= `get_employees`) order. -/
abbrev EmpMap := List (Nat × EmpData)

/-- The expression `(target_hours - accumulated_hours) - assigned_hours`
computed repeatedly inside `update_schedule`. -/
def remainingOf (d : EmpData) : Int :=
  (d.target_hours - d.accumulated_hours) - d.assigned_hours

/-- `emp_map[eid]["assigned_hours"] += delta` (`-=` via a negative delta). -/
def adjustAssigned (em : EmpMap) (eid : Nat) (delta : Int) : EmpMap :=
  em.map fun p =>
    if p.1 = eid then (p.1, { p.2 with assigned_hours := p.2.assigned_hours + delta })
    else p

/-- The record list of one (date, shift type) slot. -/
abbrev SlotRecs := List SRec

/-- One day of the roster under repair: shift type to its records. -/
abbrev DaySched := List (ShiftType × SlotRecs)

/-- The roster under repair: date to day map. -/
abbrev Sched := List (Date × DaySched)

/-- Python dict write `d[k] = v` for a key already present: replace the value
at the first occurrence of the key, keeping its position. -/
def setA {κ β : Type} [DecidableEq κ] : List (κ × β) → κ → β → List (κ × β)
  | [], _, _ => []
  | p :: ps, k, v => if p.1 = k then (k, v) :: ps else p :: setA ps k v

/-- The pass-1 candidate score `remaining + preference * 10`. -/
def pass1Score (shift : ShiftType) (pd : EmpData) : Int :=
  remainingOf pd + prefGet pd.preferences shift * 10

/-- One iteration of the pass-1 replacement scan over `emp_map.items()`: skip
employees absent on the date or listed in `assigned_ids`; keep a candidate
whose score is strictly above the best seen so far. -/
def find1Step (absences : List Absence) (d : Date) (assigned_ids : List Nat)
    (shift : ShiftType) (st : Int × Option Nat) (p : Nat × EmpData) :
    Int × Option Nat :=
  if is_employee_absent absences p.1 d then st
  else if assigned_ids.contains p.1 then st
  else if st.1 < pass1Score shift p.2 then (pass1Score shift p.2, some p.1) else st

/-- The pass-1 replacement search of `update_schedule`, starting from the
sentinel `best_score = -1e9` and no candidate. -/
def findReplacement1 (em : EmpMap) (absences : List Absence) (d : Date)
    (assigned_ids : List Nat) (shift : ShiftType) : Option Nat :=
  (em.foldl (find1Step absences d assigned_ids shift) (-1000000000, none)).2

/-- Pass-1 treatment of one `(shift_id, emp_id, emp_name)` record: if the
employee is absent and a replacement is found, move the hour credit and rewrite
the record (the candidate is always a key of `emp_map`, so its name lookup
never falls back to the default). -/
def pass1Step (absences : List Absence) (d : Date) (shift : ShiftType) (dur : Int)
    (assigned_ids : List Nat) (st : EmpMap × Nat) (r : SRec) :
    (EmpMap × Nat) × SRec :=
  if is_employee_absent absences r.emp_id d then
    match findReplacement1 st.1 absences d assigned_ids shift with
    | some c =>
      let em := adjustAssigned (adjustAssigned st.1 r.emp_id (-dur)) c dur
      let cname := ((alookup em c).map EmpData.name).getD ""
      ((em, st.2 + 1), ⟨r.shift_id, c, cname⟩)
    | none => (st, r)
  else (st, r)

/-- The record loop of pass 1 inside one slot, building `new_assignments`. -/
def pass1Recs (absences : List Absence) (d : Date) (shift : ShiftType) (dur : Int)
    (assigned_ids : List Nat) : EmpMap × Nat → SlotRecs → (EmpMap × Nat) × SlotRecs
  | st, [] => (st, [])
  | st, r :: rs =>
    let step := pass1Step absences d shift dur assigned_ids st r
    let rest := pass1Recs absences d shift dur assigned_ids step.1 rs
    (rest.1, step.2 :: rest.2)

/-- Pass 1 for one (date, shift type) slot: `assigned_ids` is computed once
from the slot's records before the record loop and is not updated when
replacements are placed into the slot. -/
def pass1Slot (absences : List Absence) (d : Date) (shift : ShiftType) (dur : Int)
    (st : EmpMap × Nat) (recs : SlotRecs) : (EmpMap × Nat) × SlotRecs :=
  pass1Recs absences d shift dur (recs.map SRec.emp_id) st recs

/-- Pass 1 over the shift types of one scheduled day. -/
def pass1Day (absences : List Absence) (shift_durations : ShiftType → Int)
    (d : Date) (st : EmpMap × Nat) (ds : DaySched) : (EmpMap × Nat) × DaySched :=
  shiftTypesList.foldl
    (fun (acc : (EmpMap × Nat) × DaySched) shift =>
      match alookup acc.2 shift with
      | none => acc
      | some recs =>
        let out := pass1Slot absences d shift (shift_durations shift) acc.1 recs
        (out.1, setA acc.2 shift out.2))
    (st, ds)

/-- Pass 1 of `update_schedule` over the days of the month. -/
def pass1 (absences : List Absence) (shift_durations : ShiftType → Int)
    (year month : Nat) (st : EmpMap × Nat) (sched : Sched) :
    (EmpMap × Nat) × Sched :=
  (List.range (daysInMonth year month)).foldl
    (fun (acc : (EmpMap × Nat) × Sched) i =>
      let d : Date := ⟨year, month, i + 1⟩
      match alookup acc.2 d with
      | none => acc
      | some ds =>
        let out := pass1Day absences shift_durations d acc.1 ds
        (out.1, setA acc.2 d out.2))
    (st, sched)

/-- One iteration of the pass-2 replacement scan: skip employees absent on the
date or listed in `assigned_ids`; keep a candidate whose remaining hours are
strictly positive and strictly above the best seen so far. -/
def find2Step (absences : List Absence) (d : Date) (assigned_ids : List Nat)
    (st : Int × Option Nat) (p : Nat × EmpData) : Int × Option Nat :=
  if is_employee_absent absences p.1 d then st
  else if assigned_ids.contains p.1 then st
  else if st.1 < remainingOf p.2 ∧ 0 < remainingOf p.2 then (remainingOf p.2, some p.1)
  else st

/-- The pass-2 replacement search of `update_schedule`, starting from the
sentinel `best_remaining = -1e9` and no candidate. -/
def findReplacement2 (em : EmpMap) (absences : List Absence) (d : Date)
    (assigned_ids : List Nat) : Option Nat :=
  (em.foldl (find2Step absences d assigned_ids) (-1000000000, none)).2

/-- Pass-2 treatment of one record: if the assigned employee's remaining hours
(on the ledger as it stands when the record is scanned) is below -5 and a
replacement with positive remaining exists, move the hour credit and rewrite.
The source indexes `emp_map[emp_id]` directly; the SQL join guarantees the key
is present, so the `getD` default is never taken on real inputs. -/
def pass2Step (absences : List Absence) (d : Date) (dur : Int)
    (assigned_ids : List Nat) (st : EmpMap × Nat) (r : SRec) :
    (EmpMap × Nat) × SRec :=
  let remaining := remainingOf ((alookup st.1 r.emp_id).getD ⟨"", 0, 0, [], 0⟩)
  if remaining < -5 then
    match findReplacement2 st.1 absences d assigned_ids with
    | some c =>
      let em := adjustAssigned (adjustAssigned st.1 r.emp_id (-dur)) c dur
      let cname := ((alookup em c).map EmpData.name).getD ""
      ((em, st.2 + 1), ⟨r.shift_id, c, cname⟩)
    | none => (st, r)
  else (st, r)

/-- The record loop of pass 2 inside one slot. -/
def pass2Recs (absences : List Absence) (d : Date) (dur : Int)
    (assigned_ids : List Nat) : EmpMap × Nat → SlotRecs → (EmpMap × Nat) × SlotRecs
  | st, [] => (st, [])
  | st, r :: rs =>
    let step := pass2Step absences d dur assigned_ids st r
    let rest := pass2Recs absences d dur assigned_ids step.1 rs
    (rest.1, step.2 :: rest.2)

/-- Pass 2 for one slot; as in pass 1, `assigned_ids` is the slot's membership
when the slot's scan starts. -/
def pass2Slot (absences : List Absence) (d : Date) (dur : Int)
    (st : EmpMap × Nat) (recs : SlotRecs) : (EmpMap × Nat) × SlotRecs :=
  pass2Recs absences d dur (recs.map SRec.emp_id) st recs

/-- Pass 2 over the shift types of one scheduled day. -/
def pass2Day (absences : List Absence) (shift_durations : ShiftType → Int)
    (d : Date) (st : EmpMap × Nat) (ds : DaySched) : (EmpMap × Nat) × DaySched :=
  shiftTypesList.foldl
    (fun (acc : (EmpMap × Nat) × DaySched) shift =>
      match alookup acc.2 shift with
      | none => acc
      | some recs =>
        let out := pass2Slot absences d (shift_durations shift) acc.1 recs
        (out.1, setA acc.2 shift out.2))
    (st, ds)

/-- Pass 2 of `update_schedule` over the days of the month. -/
def pass2 (absences : List Absence) (shift_durations : ShiftType → Int)
    (year month : Nat) (st : EmpMap × Nat) (sched : Sched) :
    (EmpMap × Nat) × Sched :=
  (List.range (daysInMonth year month)).foldl
    (fun (acc : (EmpMap × Nat) × Sched) i =>
      let d : Date := ⟨year, month, i + 1⟩
      match alookup acc.2 d with
      | none => acc
      | some ds =>
        let out := pass2Day absences shift_durations d acc.1 ds
        (out.1, setA acc.2 d out.2))
    (st, sched)

/-- The `emp_map` built from `get_employees()` rows, `assigned_hours = 0`. -/
def initialEmpMap (employees_data : List Emp) : EmpMap :=
  employees_data.map fun e =>
    (e.id, ⟨e.name, e.target_hours, e.accumulated_hours, e.preferences, 0⟩)

/-- The seeding loop of `update_schedule` ("Compute current assigned hours per
employee"): add each record's shift duration to its employee when the id is a
key of `emp_map`. -/
def seedAssigned (shift_durations : ShiftType → Int) (sched : Sched)
    (em : EmpMap) : EmpMap :=
  sched.foldl
    (fun em p =>
      p.2.foldl
        (fun em q =>
          q.2.foldl
            (fun em r =>
              if (alookup em r.emp_id).isSome then
                adjustAssigned em r.emp_id (shift_durations q.1)
              else em)
            em)
        em)
    em

/-- Output of the Roster Repairer: mutated roster, final ledger, change count. -/
structure RepairResult where
  schedule : Sched
  emp_map : EmpMap
  changes : Nat
deriving DecidableEq, Repr

/-- The Roster Repairer `ScheduleTab.update_schedule`: seed the ledger from the
existing roster, run pass 1 (absence repair) then pass 2 (rebalancing) on the
shared ledger, counting changes. -/
def update_schedule (year month : Nat) (sched : Sched) (employees_data : List Emp)
    (absences : List Absence) (shift_durations : ShiftType → Int) : RepairResult :=
  let em0 := seedAssigned shift_durations sched (initialEmpMap employees_data)
  let out1 := pass1 absences shift_durations year month (em0, 0) sched
  let out2 := pass2 absences shift_durations year month out1.1 out1.2
  ⟨out2.2, out2.1.1, out2.1.2⟩

/-- One row from `get_shifts_for_month`: `(id, shift_date, shift_type,
employee_id, name)`. -/
structure ShiftRow where
  shift_id : Nat
  shift_date : Date
  shift_type : ShiftType
  emp_id : Nat
  emp_name : String
deriving DecidableEq, Repr

/-- One per-employee statistics row built by `show_stats`. -/
structure EmpStats where
  name : String
  normal_shifts : Nat
  normal_hours : Int
  fest_shifts : Nat
  fest_hours : Int
  target : Int
  accumulated : Int
deriving DecidableEq, Repr

/-- The festive test of `show_stats`: festive exactly when the date carries an
override with `is_working_day = False`. -/
def isFestive (festivity_map : Festivities) (d : Date) : Bool :=
  match alookup festivity_map d with
  | some b => !b
  | none => false

/-- The counter update of `show_stats` for one shift: bump the festive pair
when the date is a non-working festivity, the normal pair otherwise. -/
def bumpShift (durations : ShiftType → Int) (festivity_map : Festivities)
    (s : ShiftRow) (st : EmpStats) : EmpStats :=
  if isFestive festivity_map s.shift_date then
    { st with fest_shifts := st.fest_shifts + 1,
              fest_hours := st.fest_hours + durations s.shift_type }
  else
    { st with normal_shifts := st.normal_shifts + 1,
              normal_hours := st.normal_hours + durations s.shift_type }

/-- The per-shift body of the `show_stats` loop: create the zero entry on first
sight of the employee (reading target and accumulated from `all_employees`,
where a missing key would raise), then bump the festive or normal counters. -/
def statsStep (durations : ShiftType → Int) (festivity_map : Festivities)
    (all_employees : List Emp) (acc : List (Nat × EmpStats)) (s : ShiftRow) :
    Option (List (Nat × EmpStats)) :=
  let ensured : Option (List (Nat × EmpStats)) :=
    if (alookup acc s.emp_id).isSome then some acc
    else
      match all_employees.find? (fun e => e.id == s.emp_id) with
      | some e =>
        some (acc ++ [(s.emp_id, ⟨s.emp_name, 0, 0, 0, 0,
          e.target_hours, e.accumulated_hours⟩)])
      | none => none
  match ensured with
  | none => none
  | some acc =>
    some (acc.map fun p =>
      if p.1 = s.emp_id then (p.1, bumpShift durations festivity_map s p.2) else p)

/-- The `show_stats` loop adding zero rows for employees without shifts. -/
def fillZeroStats (all_employees : List Emp) (stats : List (Nat × EmpStats)) :
    List (Nat × EmpStats) :=
  all_employees.foldl
    (fun acc e =>
      if (alookup acc e.id).isSome then acc
      else acc ++ [(e.id, ⟨e.name, 0, 0, 0, 0, e.target_hours, e.accumulated_hours⟩)])
    stats

/-- The statistics aggregation of `StatsTab.show_stats` (steps 4 to 7 of the
method): categorize every shift of the month as normal or festive and total
counts and hours per employee. -/
def show_stats (shifts : List ShiftRow) (festivity_map : Festivities)
    (durations : ShiftType → Int) (all_employees : List Emp) :
    Option (List (Nat × EmpStats)) :=
  match shifts.foldlM (statsStep durations festivity_map all_employees) [] with
  | some stats => some (fillZeroStats all_employees stats)
  | none => none

/-- A stored shift row as read by `update_employee_statistics`:
`(employee_id, shift_date, shift_type)`. -/
structure StoredShift where
  employee_id : Nat
  shift_date : Date
  shift_type : ShiftType
deriving DecidableEq, Repr

/-- `d.setdefault(k, 0); d[k] += v` on an insertion-ordered dict. -/
def bumpAssoc {κ : Type} [DecidableEq κ] (k : κ) (v : Int) :
    List (κ × Int) → List (κ × Int)
  | [] => [(k, v)]
  | p :: ps => if p.1 = k then (p.1, p.2 + v) :: ps else p :: bumpAssoc k v ps

/-- The grouping loop of `update_employee_statistics`: hours worked per
`(employee_id, year, month)`, over the shifts dated on or before today. -/
def workedByMonth (today : Date) (durations : ShiftType → Int)
    (shifts : List StoredShift) : List ((Nat × Nat × Nat) × Int) :=
  (shifts.filter fun s => dateLe s.shift_date today).foldl
    (fun acc s =>
      bumpAssoc (s.employee_id, s.shift_date.year, s.shift_date.month)
        (durations s.shift_type) acc)
    []

/-- The completed-month accumulation of `update_employee_statistics`: for every
month whose last day is before today, add the positive excess over the
employee's target to that employee's running extra total. -/
def extraHoursByEmp (today : Date) (durations : ShiftType → Int)
    (shifts : List StoredShift) (employees : List Emp) : List (Nat × Int) :=
  (workedByMonth today durations shifts).foldl
    (fun acc p =>
      if dateLt (lastDayOfMonth p.1.2.1 p.1.2.2) today then
        match employees.find? (fun e => e.id == p.1.1) with
        | some e =>
          let extra := p.2 - e.target_hours
          if 0 < extra then bumpAssoc p.1.1 extra acc else acc
        | none => acc
      else acc)
    []

/-- `DatabaseManager.update_employee_statistics`: overwrite `accumulated_hours`
with the recomputed extra for every employee appearing in the extra map; all
other employees keep their stored value unchanged. -/
def update_employee_statistics (today : Date) (durations : ShiftType → Int)
    (shifts : List StoredShift) (employees : List Emp) : List Emp :=
  (extraHoursByEmp today durations shifts employees).foldl
    (fun emps p =>
      emps.map fun e =>
        if e.id = p.1 then { e with accumulated_hours := p.2 } else e)
    employees

/-- Modelled from the claim's words (C6), for comparison with the code: the
sum, over all completed months in which the employee worked, of the positive
excess `total_hours_worked_that_month - target_hours`. -/
def claimedAccumulated (today : Date) (durations : ShiftType → Int)
    (shifts : List StoredShift) (target : Int) (eid : Nat) : Int :=
  ((workedByMonth today durations shifts).filter
      (fun p => p.1.1 == eid && dateLt (lastDayOfMonth p.1.2.1 p.1.2.2) today)).foldl
    (fun acc p => if 0 < p.2 - target then acc + (p.2 - target) else acc) 0

/-- The default staffing settings inserted by `create_tables`
(`staffing_morning = 2`, `staffing_afternoon = 2`, `staffing_night = 1`). -/
def defaultStaffing : ShiftType → Nat
  | .Morning => 2
  | .Afternoon => 2
  | .Night => 1

/-- The default duration settings inserted by `create_tables`
(`duration_morning = 7`, `duration_afternoon = 8`, `duration_night = 8`). -/
def defaultDurations : ShiftType → Int
  | .Morning => 7
  | .Afternoon => 8
  | .Night => 8

/-- Projection of a successful generation result (total for convenience). -/
def okResult : Except GenAbort GenResult → GenResult
  | .ok r => r
  | .error _ => ⟨[], [], [], []⟩

/-- A single employee with the default target of 160 hours. -/
def c1Employee : Emp := ⟨1, "A", 160, 0, [], 0⟩

/-- C1: the Roster Generator is claimed to perform no I/O and to have no side
effects beyond its returned values.  Refutation at a concrete input: with one
employee and the default settings, generating January 2025 issues 155
`add_shift` database inserts (5 assignment occurrences per day, 31 days)
during generation. -/
theorem c1_counterexample :
    (generate_schedule 2025 1 [c1Employee] defaultStaffing defaultDurations [] []).map
        (fun r => r.db_shifts.length) = .ok 155
      ∧ (155 : Nat) ≠ 0 :=
  ⟨rfl, by decide⟩

/-- Employees for the C2 counterexample: ids 1 and 2 will be absent; id 3 has a
large hour need, id 4 a small one. -/
def c2Emps : List Emp :=
  [⟨1, "A", 0, 0, [], 0⟩, ⟨2, "B", 0, 0, [], 0⟩,
   ⟨3, "C", 100, 0, [], 0⟩, ⟨4, "D", 10, 0, [], 0⟩]

/-- Absences for the C2 counterexample: employees 1 and 2 absent on 2025-01-01. -/
def c2Absences : List Absence :=
  [⟨1, ⟨2025, 1, 1⟩, ⟨2025, 1, 1⟩⟩, ⟨2, ⟨2025, 1, 1⟩, ⟨2025, 1, 1⟩⟩]

/-- Roster for the C2 counterexample: one Night slot holding records of the two
absent employees. -/
def c2Sched : Sched :=
  [(⟨2025, 1, 1⟩, [(ShiftType.Night, [⟨1, 1, "A"⟩, ⟨2, 2, "B"⟩])])]

/-- C2: the claim says a pass-1 replacement is never an employee already
assigned to the slot at the moment of selection, including employees placed by
earlier replacements in the same slot.  Refutation: both records of the slot
are absent; employee 3 is chosen for the first record (score 110 beating
employee 4's 20), and — because `assigned_ids` is computed once from the
original occupants and never updated — employee 3 is chosen again for the
second record (score 102 after its credit), so the repaired slot holds
employee 3 twice instead of 3 then 4. -/
theorem c2_counterexample :
    alookup ((alookup (update_schedule 2025 1 c2Sched c2Emps c2Absences
        defaultDurations).schedule ⟨2025, 1, 1⟩).getD []) ShiftType.Night
      = some [⟨1, 3, "C"⟩, ⟨2, 3, "C"⟩] := by
  decide

/-- Employees for the C4 counterexample. -/
def c4Emps : List Emp :=
  [⟨1, "X", 2, 0, [], 0⟩, ⟨2, "Y", 1, 0, [], 0⟩, ⟨3, "Z", 100, 0, [], 0⟩]

/-- Roster for the C4 counterexample: one Night slot with employees 1 and 3. -/
def c4Sched : Sched :=
  [(⟨2025, 1, 1⟩, [(ShiftType.Night, [⟨1, 1, "X"⟩, ⟨2, 3, "Z"⟩])])]

/-- C4: the claim says a second repair run always reports `changes = 0`.
Refutation: in the first run pass 2 replaces over-assigned employee 1
(remaining -6) by employee 2, whose remaining 1 is positive but small, driving
employee 2 to remaining -7; the second run on the unchanged result then
rewrites that record again (employee 1 now has positive remaining 2), so the
second run reports `changes = 1`. -/
theorem c4_counterexample :
    (update_schedule 2025 1
        (update_schedule 2025 1 c4Sched c4Emps [] defaultDurations).schedule
        c4Emps [] defaultDurations).changes = 1
      ∧ (1 : Nat) ≠ 0 :=
  ⟨by decide, by decide⟩

/-- Employees for the C5 counterexample. -/
def c5Emps : List Emp :=
  [⟨1, "X", 2, 0, [], 0⟩, ⟨2, "Y", 10, 0, [], 0⟩, ⟨3, "Z", 100, 0, [], 0⟩]

/-- Roster for the C5 counterexample: Night slots on January 1 (employees 1
and 3) and January 2 (record 3 held by employee 2). -/
def c5Sched : Sched :=
  [(⟨2025, 1, 1⟩, [(ShiftType.Night, [⟨1, 1, "X"⟩, ⟨2, 3, "Z"⟩])]),
   (⟨2025, 1, 2⟩, [(ShiftType.Night, [⟨3, 2, "Y"⟩])])]

/-- C5: the claim says a pass-2 record is rewritten only when its employee's
remaining hours computed on the post-pass-1 ledger is strictly below -5.
Refutation: there are no absences, so the post-pass-1 ledger is the seeded
ledger, on which employee 2 has remaining 2 (not below -5); yet an earlier
pass-2 rewrite on January 1 credits employee 2 with 8 more hours, so when the
January 2 record held by employee 2 is scanned its current remaining is -6 and
the record is rewritten to employee 3. -/
theorem c5_counterexample :
    ((alookup (pass1 [] defaultDurations 2025 1
        (seedAssigned defaultDurations c5Sched (initialEmpMap c5Emps), 0)
        c5Sched).1.1 2).map remainingOf = some 2)
      ∧ ¬ ((2 : Int) < -5)
      ∧ alookup ((alookup c5Sched ⟨2025, 1, 2⟩).getD []) ShiftType.Night
          = some [⟨3, 2, "Y"⟩]
      ∧ alookup ((alookup (update_schedule 2025 1 c5Sched c5Emps []
            defaultDurations).schedule ⟨2025, 1, 2⟩).getD []) ShiftType.Night
          = some [⟨3, 3, "Z"⟩] := by
  refine ⟨by decide, by decide, by decide, by decide⟩

/-- An employee holding a stale carry-over value of 50 hours. -/
def c6Emp : Emp := ⟨1, "A", 160, 50, [], 0⟩

/-- C6: the claim says that after the carry-over recompute every employee's
`accumulated_hours` equals the positive-excess sum over their completed
months.  Refutation: with no shifts at all that sum is 0, yet the employee's
stored value 50 is left untouched, because the code only updates employees
that appear in the recomputed extra map. -/
theorem c6_counterexample :
    (update_employee_statistics ⟨2025, 6, 15⟩ defaultDurations [] [c6Emp]).map
        Emp.accumulated_hours = [50]
      ∧ claimedAccumulated ⟨2025, 6, 15⟩ defaultDurations [] 160 1 = 0
      ∧ (50 : Int) ≠ 0 :=
  ⟨by decide, by decide, by decide⟩

theorem length_insertDesc {α : Type} (key : α → Int × Int) (x : α) (l : List α) :
    (insertDesc key x l).length = l.length + 1 := by
  induction l with
  | nil => rfl
  | cons y ys ih =>
    simp only [insertDesc]
    split
    · simp
    · simp [ih]

theorem length_sortedDescAux {α : Type} (key : α → Int × Int) (l acc : List α) :
    (l.foldl (fun acc x => insertDesc key x acc) acc).length
      = l.length + acc.length := by
  induction l generalizing acc with
  | nil => simp
  | cons x xs ih =>
    simp only [List.foldl_cons, List.length_cons]
    rw [ih, length_insertDesc]
    omega

theorem length_sortedDesc {α : Type} (key : α → Int × Int) (l : List α) :
    (sortedDesc key l).length = l.length := by
  simpa [sortedDesc] using length_sortedDescAux key l []

theorem processShift_isSome (absences : List Absence) (staffing : ShiftType → Nat)
    (shift_durations : ShiftType → Int) (d : Date) (shift : ShiftType)
    (st : GenState) :
    (processShift absences staffing shift_durations d shift st).isSome := by
  unfold processShift
  by_cases he :
      (st.employees.filter fun e => !(is_employee_absent absences e.id d)).isEmpty
  · simp [he]
  · have hlen :
        (sortedDesc (sort_key shift)
          (st.employees.filter fun e => !(is_employee_absent absences e.id d))).length
        = (st.employees.filter fun e => !(is_employee_absent absences e.id d)).length :=
      length_sortedDesc _ _
    simp only [he, if_false, Bool.false_eq_true]
    split
    · split
      · rename_i heq
        exfalso
        rw [heq] at hlen
        cases hf : st.employees.filter fun e => !(is_employee_absent absences e.id d) with
        | nil => rw [hf] at he; simp at he
        | cons a as => rw [hf] at hlen; simp at hlen
      · simp
    · simp

theorem foldlM_option_isSome {α β : Type} (f : β → α → Option β) (l : List α)
    (h : ∀ b a, a ∈ l → (f b a).isSome) :
    ∀ acc, (l.foldlM f acc).isSome := by
  induction l with
  | nil => intro acc; simp
  | cons x xs ih =>
    intro acc
    have hx := h acc x (by simp)
    match hfx : f acc x with
    | some b =>
      have hrest : (xs.foldlM f b).isSome :=
        ih (fun b a ha => h b a (by simp [ha])) b
      simpa [List.foldlM_cons, hfx] using hrest
    | none => rw [hfx] at hx; simp at hx

theorem processDay_isSome (absences : List Absence) (staffing : ShiftType → Nat)
    (shift_durations : ShiftType → Int) (festivities : Festivities)
    (d : Date) (st : GenState) :
    (processDay absences staffing shift_durations festivities d st).isSome := by
  unfold processDay
  split
  · simp
  · have hfold :
        (shiftTypesList.foldlM
          (fun (acc : GenState × GenDay) shift =>
            match processShift absences staffing shift_durations d shift acc.1 with
            | some (st', names) => some (st', acc.2 ++ [(shift, names)])
            | none => none)
          (st, ([] : GenDay))).isSome := by
      apply foldlM_option_isSome
      intro b a _
      have hps := processShift_isSome absences staffing shift_durations d a b.1
      match hp : processShift absences staffing shift_durations d a b.1 with
      | some p => simp [hp]
      | none => rw [hp] at hps; simp at hps
    match hf : shiftTypesList.foldlM
        (fun (acc : GenState × GenDay) shift =>
          match processShift absences staffing shift_durations d shift acc.1 with
          | some (st', names) => some (st', acc.2 ++ [(shift, names)])
          | none => none)
        (st, ([] : GenDay)) with
    | some p => simp [hf]
    | none => rw [hf] at hfold; simp at hfold

theorem generateDays_isSome (absences : List Absence) (staffing : ShiftType → Nat)
    (shift_durations : ShiftType → Int) (festivities : Festivities)
    (year month : Nat) (st : GenState) :
    (generateDays absences staffing shift_durations festivities year month st).isSome := by
  unfold generateDays
  apply foldlM_option_isSome
  intro b a _
  have hpd := processDay_isSome absences staffing shift_durations festivities
    ⟨year, month, a + 1⟩ b.1
  match hp : processDay absences staffing shift_durations festivities
      ⟨year, month, a + 1⟩ b.1 with
  | some p => simp [hp]
  | none => rw [hp] at hpd; simp at hpd

/-- C9: the under-staffing fallback's access `sorted_candidates[0]` is always
safe.  The embedding returns `GenAbort.indexError` precisely where the source
would raise at that subscript; the generator never produces it, because the
empty-eligible case is handled (with a warning and an empty slot) before the
fallback is reached, so the ranked candidate list is non-empty there. -/
theorem c9_generator_never_index_errors (year month : Nat)
    (employees_data : List Emp) (staffing : ShiftType → Nat)
    (shift_durations : ShiftType → Int) (absences : List Absence)
    (festivities : Festivities) :
    generate_schedule year month employees_data staffing shift_durations
      absences festivities ≠ .error .indexError := by
  unfold generate_schedule
  split
  · intro h
    simp at h
  · have hg := generateDays_isSome absences staffing shift_durations festivities
      year month ⟨employees_data.map fun e => { e with assigned_hours := 0 }, [], []⟩
    match hd : generateDays absences staffing shift_durations festivities year month
        ⟨employees_data.map fun e => { e with assigned_hours := 0 }, [], []⟩ with
    | some p => simp [hd]
    | none => rw [hd] at hg; simp at hg

theorem foldl_creditAssigned (dur : Int) (ids : List Nat) (emps : List Emp) :
    ids.foldl (creditAssigned dur) emps
      = emps.map fun e =>
          { e with assigned_hours := e.assigned_hours + dur * (ids.count e.id) } := by
  induction ids generalizing emps with
  | nil =>
    simp only [List.foldl_nil, List.count_nil, Nat.cast_zero, mul_zero, add_zero]
    exact (List.map_id emps).symm
  | cons i ids ih =>
    simp only [List.foldl_cons]
    rw [ih, creditAssigned, List.map_map]
    refine List.map_congr_left fun e _ => ?_
    simp only [Function.comp_apply]
    by_cases hei : e.id = i
    · simp only [hei, if_pos rfl, List.count_cons, beq_iff_eq, if_pos rfl]
      congr 1
      push_cast
      ring
    · simp only [if_neg hei, List.count_cons, beq_iff_eq,
        if_neg (Ne.symm hei), add_zero]

/-- C3: during generation, whenever the eligible set for a (date, shift type)
slot is non-empty but smaller than the required staffing, the generator emits
an under-staffing warning for that slot, pads the assigned list by repeating
the top-ranked candidate until its length equals the required staffing, and
credits each employee's ledger by the shift duration once per occurrence in
the assigned list (duplicates included); one DB insert is issued per
occurrence as well. -/
theorem c3_understaffed_fallback (absences : List Absence)
    (staffing : ShiftType → Nat) (shift_durations : ShiftType → Int)
    (d : Date) (shift : ShiftType) (st : GenState)
    (hne : st.employees.filter (fun e => !(is_employee_absent absences e.id d)) ≠ [])
    (hlt : (sortedDesc (sort_key shift)
        (st.employees.filter fun e => !(is_employee_absent absences e.id d))).length
      < staffing shift) :
    ∃ top rest,
      sortedDesc (sort_key shift)
          (st.employees.filter fun e => !(is_employee_absent absences e.id d))
        = top :: rest
      ∧ processShift absences staffing shift_durations d shift st
          = some
              ({ employees := st.employees.map fun e =>
                   { e with assigned_hours := e.assigned_hours
                       + shift_durations shift
                         * ((((top :: rest)
                             ++ List.replicate (staffing shift - (top :: rest).length) top).map
                                 Emp.id).count e.id) },
                 warnings_list := st.warnings_list ++ [Warning.underStaffed shift d],
                 db_shifts := st.db_shifts
                   ++ (((top :: rest)
                       ++ List.replicate (staffing shift - (top :: rest).length) top).map
                           Emp.id).map fun i => ⟨d, shift, i⟩ },
               ((top :: rest)
                 ++ List.replicate (staffing shift - (top :: rest).length) top).map Emp.name)
      ∧ (((top :: rest)
           ++ List.replicate (staffing shift - (top :: rest).length) top).map
              Emp.name).length = staffing shift := by
  have hempty :
      (st.employees.filter fun e => !(is_employee_absent absences e.id d)).isEmpty = false := by
    cases hf : st.employees.filter fun e => !(is_employee_absent absences e.id d) with
    | nil => exact absurd hf hne
    | cons a as => simp
  have hlen : (sortedDesc (sort_key shift)
        (st.employees.filter fun e => !(is_employee_absent absences e.id d))).length
      = (st.employees.filter fun e => !(is_employee_absent absences e.id d)).length :=
    length_sortedDesc _ _
  cases hs : sortedDesc (sort_key shift)
      (st.employees.filter fun e => !(is_employee_absent absences e.id d)) with
  | nil =>
    exfalso
    rw [hs] at hlen
    cases hf : st.employees.filter fun e => !(is_employee_absent absences e.id d) with
    | nil => exact hne hf
    | cons a as => rw [hf] at hlen; simp at hlen
  | cons top rest =>
    refine ⟨top, rest, rfl, ?_, ?_⟩
    · rw [hs] at hlt
      unfold processShift
      simp only [hempty, Bool.false_eq_true, if_false, hs, if_pos hlt]
      rw [commitAssigned]
      simp only [foldl_creditAssigned]
    · rw [hs] at hlt
      simp only [List.length_map, List.length_append, List.length_replicate,
        List.length_cons]
      simp only [List.length_cons] at hlt
      omega

/-- Generation state with a single employee, for exercising the fallback. -/
def c3State : GenState := ⟨[⟨1, "A", 160, 0, [], 0⟩], [], []⟩

theorem c3_understaffed_fallback_witness :
    c3State.employees.filter (fun e => !(is_employee_absent [] e.id ⟨2025, 1, 1⟩)) ≠ []
    ∧ (sortedDesc (sort_key .Morning)
        (c3State.employees.filter fun e => !(is_employee_absent [] e.id ⟨2025, 1, 1⟩))).length
      < defaultStaffing .Morning
    ∧ ∃ top rest,
      sortedDesc (sort_key .Morning)
          (c3State.employees.filter fun e => !(is_employee_absent [] e.id ⟨2025, 1, 1⟩))
        = top :: rest
      ∧ processShift [] defaultStaffing defaultDurations ⟨2025, 1, 1⟩ .Morning c3State
          = some
              ({ employees := c3State.employees.map fun e =>
                   { e with assigned_hours := e.assigned_hours
                       + defaultDurations .Morning
                         * ((((top :: rest)
                             ++ List.replicate
                                 (defaultStaffing .Morning - (top :: rest).length) top).map
                                 Emp.id).count e.id) },
                 warnings_list := c3State.warnings_list
                   ++ [Warning.underStaffed .Morning ⟨2025, 1, 1⟩],
                 db_shifts := c3State.db_shifts
                   ++ (((top :: rest)
                       ++ List.replicate
                           (defaultStaffing .Morning - (top :: rest).length) top).map
                           Emp.id).map fun i => ⟨⟨2025, 1, 1⟩, .Morning, i⟩ },
               ((top :: rest)
                 ++ List.replicate
                     (defaultStaffing .Morning - (top :: rest).length) top).map Emp.name)
      ∧ (((top :: rest)
           ++ List.replicate (defaultStaffing .Morning - (top :: rest).length) top).map
              Emp.name).length = defaultStaffing .Morning :=
  ⟨by decide, by decide,
    c3_understaffed_fallback [] defaultStaffing defaultDurations ⟨2025, 1, 1⟩ .Morning
      c3State (by decide) (by decide)⟩

/-- Position tags used to state the stability of the ranking. -/
def tagIdx {α : Type} : Nat → List α → List (Nat × α)
  | _, [] => []
  | n, x :: xs => (n, x) :: tagIdx (n + 1) xs

/-- Descending-stable ordering on tagged elements: an earlier element has a
strictly greater key, or an equal key and a smaller input position. -/
def stableRel {β : Type} (keyB : β → Int × Int) (pos : β → Nat) (a b : β) : Prop :=
  keyLt (keyB b) (keyB a) = true ∨ (keyB a = keyB b ∧ pos a < pos b)

theorem tagIdx_map_snd {α : Type} (n : Nat) (l : List α) :
    (tagIdx n l).map Prod.snd = l := by
  induction l generalizing n with
  | nil => rfl
  | cons x xs ih => simp [tagIdx, ih]

theorem tagIdx_mem_le {α : Type} (n : Nat) (l : List α) :
    ∀ p ∈ tagIdx n l, n ≤ p.1 := by
  induction l generalizing n with
  | nil => intro p hp; simp [tagIdx] at hp
  | cons x xs ih =>
    intro p hp
    simp only [tagIdx, List.mem_cons] at hp
    rcases hp with h | h
    · subst h; exact Nat.le_refl n
    · have := ih (n + 1) p h; omega

theorem tagIdx_pairwise_lt {α : Type} (n : Nat) (l : List α) :
    (tagIdx n l).Pairwise fun a b => a.1 < b.1 := by
  induction l generalizing n with
  | nil => simp [tagIdx]
  | cons x xs ih =>
    simp only [tagIdx]
    refine List.Pairwise.cons ?_ (ih (n + 1))
    intro p hp
    have := tagIdx_mem_le (n + 1) xs p hp
    omega

theorem keyLt_iff (a b : Int × Int) :
    keyLt a b = true ↔ (a.1 < b.1 ∨ (a.1 = b.1 ∧ a.2 < b.2)) := by
  simp [keyLt]

theorem keyLt_trans (a b c : Int × Int) (h1 : keyLt a b = true)
    (h2 : keyLt b c = true) : keyLt a c = true := by
  obtain ⟨a1, a2⟩ := a
  obtain ⟨b1, b2⟩ := b
  obtain ⟨c1, c2⟩ := c
  rw [keyLt_iff] at h1 h2 ⊢
  simp only at h1 h2 ⊢
  omega

theorem keyLt_total_eq (a b : Int × Int) (h1 : keyLt a b = false)
    (h2 : keyLt b a = false) : a = b := by
  obtain ⟨a1, a2⟩ := a
  obtain ⟨b1, b2⟩ := b
  have h1' : ¬ (a1 < b1 ∨ (a1 = b1 ∧ a2 < b2)) := by
    rw [← keyLt_iff (a1, a2) (b1, b2)]; simp [h1]
  have h2' : ¬ (b1 < a1 ∨ (b1 = a1 ∧ b2 < a2)) := by
    rw [← keyLt_iff (b1, b2) (a1, a2)]; simp [h2]
  simp only [Prod.mk.injEq]
  omega

theorem stableRel_trans {β : Type} (keyB : β → Int × Int) (pos : β → Nat)
    (a b c : β) (h1 : stableRel keyB pos a b) (h2 : stableRel keyB pos b c) :
    stableRel keyB pos a c := by
  rcases h1 with h1 | ⟨e1, p1⟩
  · rcases h2 with h2 | ⟨e2, p2⟩
    · exact Or.inl (keyLt_trans _ _ _ h2 h1)
    · exact Or.inl (e2 ▸ h1)
  · rcases h2 with h2 | ⟨e2, p2⟩
    · exact Or.inl (by rw [e1]; exact h2)
    · exact Or.inr ⟨e1.trans e2, Nat.lt_trans p1 p2⟩

theorem mem_insertDesc {α : Type} (key : α → Int × Int) (x y : α) (l : List α) :
    y ∈ insertDesc key x l ↔ y = x ∨ y ∈ l := by
  induction l with
  | nil => simp [insertDesc]
  | cons z zs ih =>
    simp only [insertDesc]
    split
    · simp [List.mem_cons]
    · simp only [List.mem_cons, ih]
      tauto

theorem insertDesc_pairwise {β : Type} (keyB : β → Int × Int) (pos : β → Nat)
    (x : β) (l : List β) (hl : l.Pairwise (stableRel keyB pos))
    (hpos : ∀ y ∈ l, pos y < pos x) :
    (insertDesc keyB x l).Pairwise (stableRel keyB pos) := by
  induction l with
  | nil => simp [insertDesc]
  | cons y ys ih =>
    rw [List.pairwise_cons] at hl
    obtain ⟨hy, hys⟩ := hl
    simp only [insertDesc]
    split
    · rename_i hk
      refine List.Pairwise.cons ?_ (List.Pairwise.cons hy hys)
      intro z hz
      rcases List.mem_cons.mp hz with rfl | hz'
      · exact Or.inl hk
      · exact stableRel_trans _ _ _ _ _ (Or.inl hk) (hy z hz')
    · rename_i hk
      have hkf : keyLt (keyB y) (keyB x) = false := by
        cases h : keyLt (keyB y) (keyB x)
        · rfl
        · exact absurd h hk
      have hyx : stableRel keyB pos y x := by
        cases hxy : keyLt (keyB x) (keyB y)
        · exact Or.inr ⟨(keyLt_total_eq _ _ hkf hxy).symm ▸ rfl,
            hpos y (List.mem_cons_self y ys)⟩
        · exact Or.inl hxy
      refine List.Pairwise.cons ?_
        (ih hys fun z hz => hpos z (List.mem_cons_of_mem y hz))
      intro z hz
      rcases (mem_insertDesc keyB x z ys).mp hz with rfl | hz'
      · exact hyx
      · exact hy z hz'

theorem sortedDesc_pairwise_aux {β : Type} (keyB : β → Int × Int) (pos : β → Nat) :
    ∀ (todo acc : List β), acc.Pairwise (stableRel keyB pos) →
      (∀ y ∈ acc, ∀ z ∈ todo, pos y < pos z) →
      todo.Pairwise (fun a b => pos a < pos b) →
      (todo.foldl (fun acc x => insertDesc keyB x acc) acc).Pairwise
        (stableRel keyB pos) := by
  intro todo
  induction todo with
  | nil => intro acc h _ _; exact h
  | cons x xs ih =>
    intro acc hacc hcross hthis
    rw [List.pairwise_cons] at hthis
    obtain ⟨hx, hxs⟩ := hthis
    simp only [List.foldl_cons]
    refine ih (insertDesc keyB x acc) ?_ ?_ hxs
    · exact insertDesc_pairwise keyB pos x acc hacc
        fun y hy => hcross y hy x (List.mem_cons_self x xs)
    · intro y hy z hz
      rcases (mem_insertDesc keyB x y acc).mp hy with rfl | hy'
      · exact hx z hz
      · exact hcross y hy' z (List.mem_cons_of_mem x hz)

theorem insertDesc_perm {α : Type} (key : α → Int × Int) (x : α) (l : List α) :
    (insertDesc key x l).Perm (x :: l) := by
  induction l with
  | nil => exact List.Perm.refl _
  | cons y ys ih =>
    simp only [insertDesc]
    split
    · exact List.Perm.refl _
    · exact (ih.cons y).trans (List.Perm.swap x y ys)

theorem sortedDesc_perm_aux {α : Type} (key : α → Int × Int) :
    ∀ (todo acc : List α),
      (todo.foldl (fun acc x => insertDesc key x acc) acc).Perm (todo ++ acc) := by
  intro todo
  induction todo with
  | nil => intro acc; simp
  | cons x xs ih =>
    intro acc
    simp only [List.foldl_cons, List.cons_append]
    exact ((ih (insertDesc key x acc)).trans
      ((insertDesc_perm key x acc).append_left xs)).trans
      List.perm_middle

theorem sortedDesc_perm {α : Type} (key : α → Int × Int) (l : List α) :
    (sortedDesc key l).Perm l := by
  simpa [sortedDesc] using sortedDesc_perm_aux key l []

theorem insertDesc_map_snd {α : Type} (key : α → Int × Int) (x : Nat × α)
    (l : List (Nat × α)) :
    (insertDesc (fun p => key p.2) x l).map Prod.snd
      = insertDesc key x.2 (l.map Prod.snd) := by
  induction l with
  | nil => rfl
  | cons y ys ih =>
    simp only [insertDesc, List.map_cons]
    split
    · simp
    · simp [ih]

theorem sortedDesc_map_snd_aux {α : Type} (key : α → Int × Int) :
    ∀ (todo acc : List (Nat × α)),
      (todo.foldl (fun acc x => insertDesc (fun p => key p.2) x acc) acc).map Prod.snd
        = (todo.map Prod.snd).foldl (fun acc x => insertDesc key x acc)
            (acc.map Prod.snd) := by
  intro todo
  induction todo with
  | nil => intro acc; rfl
  | cons x xs ih =>
    intro acc
    simp only [List.foldl_cons, List.map_cons]
    rw [ih, insertDesc_map_snd]

theorem sortedDesc_map_snd {α : Type} (key : α → Int × Int) (l : List (Nat × α)) :
    (sortedDesc (fun p => key p.2) l).map Prod.snd = sortedDesc key (l.map Prod.snd) := by
  simpa [sortedDesc] using sortedDesc_map_snd_aux key l []

/-- C7: the Candidate Ranker `sorted(eligible, key=sort_key, reverse=True)` of
`generate_schedule` orders employees by preference weight for the shift
descending, then remaining hours descending, and is stable: tagging each
eligible employee with its input position, the ranked tagged list is a
permutation of the input in which every earlier element has a strictly greater
key or an equal key and a smaller input position; untagging recovers exactly
the ranker's output, so the ranking is a deterministic function of the input
order. -/
theorem c7_ranker_deterministic_stable (shift : ShiftType) (eligible : List Emp) :
    sortedDesc (sort_key shift) eligible
      = (sortedDesc (fun p => sort_key shift p.2) (tagIdx 0 eligible)).map Prod.snd
    ∧ (sortedDesc (fun p => sort_key shift p.2) (tagIdx 0 eligible)).Perm
        (tagIdx 0 eligible)
    ∧ (sortedDesc (fun p => sort_key shift p.2) (tagIdx 0 eligible)).Pairwise
        (stableRel (fun p => sort_key shift p.2) Prod.fst) := by
  refine ⟨?_, sortedDesc_perm _ _, ?_⟩
  · rw [sortedDesc_map_snd, tagIdx_map_snd]
  · refine sortedDesc_pairwise_aux _ _ (tagIdx 0 eligible) [] (by simp) ?_ ?_
    · intro y hy; simp at hy
    · exact tagIdx_pairwise_lt 0 eligible

theorem alookup_eq_none {κ β : Type} [DecidableEq κ] (l : List (κ × β)) (k : κ) :
    alookup l k = none ↔ k ∉ l.map Prod.fst := by
  induction l with
  | nil => simp [alookup]
  | cons p ps ih =>
    simp only [alookup, List.map_cons, List.mem_cons]
    split
    · rename_i h
      subst h
      simp
    · rename_i h
      have hne : k ≠ p.1 := fun hk => h hk.symm
      simp [ih, hne]

theorem bumpAssoc_keys {κ : Type} [DecidableEq κ] (k : κ) (v : Int)
    (l : List (κ × Int)) :
    (bumpAssoc k v l).map Prod.fst
      = if k ∈ l.map Prod.fst then l.map Prod.fst else l.map Prod.fst ++ [k] := by
  induction l with
  | nil => simp [bumpAssoc]
  | cons p ps ih =>
    simp only [bumpAssoc]
    split
    · rename_i h
      subst h
      simp
    · rename_i h
      have hne : k ≠ p.1 := fun hk => h hk.symm
      simp only [List.map_cons, ih, List.mem_cons]
      by_cases hk : k ∈ ps.map Prod.fst
      · rw [if_pos hk, if_pos (Or.inr hk)]
      · rw [if_neg hk, if_neg ?_]
        · rfl
        · intro hor
          rcases hor with h1 | h2
          · exact hne h1
          · exact hk h2

theorem bumpAssoc_keys_nodup {κ : Type} [DecidableEq κ] (k : κ) (v : Int)
    (l : List (κ × Int)) (h : (l.map Prod.fst).Nodup) :
    ((bumpAssoc k v l).map Prod.fst).Nodup := by
  rw [bumpAssoc_keys]
  split
  · exact h
  · rename_i hk
    rw [List.nodup_append]
    refine ⟨h, List.nodup_singleton k, ?_⟩
    intro a ha hak
    simp only [List.mem_singleton] at hak
    exact hk (hak ▸ ha)

theorem foldl_preserve {α β : Type} (P : β → Prop) (f : β → α → β) (l : List α)
    (acc : β) (h0 : P acc) (hstep : ∀ b a, P b → P (f b a)) : P (l.foldl f acc) := by
  induction l generalizing acc with
  | nil => exact h0
  | cons x xs ih => exact ih (f acc x) (hstep acc x h0)

theorem extraHours_keys_nodup (today : Date) (durations : ShiftType → Int)
    (shifts : List StoredShift) (employees : List Emp) :
    ((extraHoursByEmp today durations shifts employees).map Prod.fst).Nodup := by
  unfold extraHoursByEmp
  refine foldl_preserve
    (fun l : List (Nat × Int) => (l.map Prod.fst).Nodup) _ _ _ (by simp) ?_
  intro acc p hacc
  split
  · split
    · dsimp only
      split
      · exact bumpAssoc_keys_nodup _ _ _ hacc
      · exact hacc
    · exact hacc
  · exact hacc

/-- The effect of the final update loop of `update_employee_statistics` on one
employee: overwrite `accumulated_hours` when the id has a recomputed extra. -/
def applyExtra (us : List (Nat × Int)) (e : Emp) : Emp :=
  match alookup us e.id with
  | some v => { e with accumulated_hours := v }
  | none => e

theorem applyExtra_id (us : List (Nat × Int)) (e : Emp) :
    (applyExtra us e).id = e.id := by
  unfold applyExtra
  cases alookup us e.id <;> rfl

theorem applyExtra_target (us : List (Nat × Int)) (e : Emp) :
    (applyExtra us e).target_hours = e.target_hours := by
  unfold applyExtra
  cases alookup us e.id <;> rfl

theorem applyExtra_idem (us : List (Nat × Int)) (e : Emp) :
    applyExtra us (applyExtra us e) = applyExtra us e := by
  cases h : alookup us e.id with
  | none =>
    have h1 : applyExtra us e = e := by unfold applyExtra; rw [h]
    rw [h1, h1]
  | some v =>
    have h1 : applyExtra us e = { e with accumulated_hours := v } := by
      unfold applyExtra; rw [h]
    have h2 : applyExtra us ({ e with accumulated_hours := v } : Emp)
        = { e with accumulated_hours := v } := by
      unfold applyExtra
      have hsame : alookup us ({ e with accumulated_hours := v } : Emp).id = some v := h
      rw [hsame]
    rw [h1, h2]

theorem foldl_setAccum (us : List (Nat × Int)) (emps : List Emp)
    (hnd : (us.map Prod.fst).Nodup) :
    us.foldl
        (fun emps p =>
          emps.map fun e =>
            if e.id = p.1 then { e with accumulated_hours := p.2 } else e)
        emps
      = emps.map (applyExtra us) := by
  induction us generalizing emps with
  | nil =>
    simp only [List.foldl_nil]
    exact (List.map_id emps).symm
  | cons p ps ih =>
    simp only [List.map_cons, List.nodup_cons] at hnd
    obtain ⟨hp, hps⟩ := hnd
    simp only [List.foldl_cons]
    rw [ih _ hps, List.map_map]
    refine List.map_congr_left fun e _ => ?_
    simp only [Function.comp_apply]
    by_cases he : e.id = p.1
    · rw [if_pos he]
      have h1 : applyExtra ps ({ e with accumulated_hours := p.2 } : Emp)
          = { e with accumulated_hours := p.2 } := by
        unfold applyExtra
        have hnone : alookup ps ({ e with accumulated_hours := p.2 } : Emp).id = none := by
          show alookup ps e.id = none
          rw [he]
          exact (alookup_eq_none ps p.1).mpr hp
        rw [hnone]
      have h2 : applyExtra (p :: ps) e = { e with accumulated_hours := p.2 } := by
        unfold applyExtra
        have hsome : alookup (p :: ps) e.id = some p.2 := by
          simp only [alookup]
          rw [if_pos he.symm]
        rw [hsome]
      rw [h1, h2]
    · rw [if_neg he]
      have h2 : applyExtra (p :: ps) e = applyExtra ps e := by
        unfold applyExtra
        have hsame : alookup (p :: ps) e.id = alookup ps e.id := by
          simp only [alookup]
          rw [if_neg (fun h => he h.symm)]
        rw [hsame]
      rw [h2]

theorem find_map_target (g : Emp → Emp) (hid : ∀ e, (g e).id = e.id)
    (ht : ∀ e, (g e).target_hours = e.target_hours) (l : List Emp) (k : Nat) :
    ((l.map g).find? fun e => e.id == k).map Emp.target_hours
      = (l.find? fun e => e.id == k).map Emp.target_hours := by
  induction l with
  | nil => rfl
  | cons e es ih =>
    simp only [List.map_cons, List.find?_cons, hid e]
    cases hk : (e.id == k)
    · exact ih
    · simp [ht e]

theorem foldl_congr_fun {α β : Type} (l : List α) (f g : β → α → β) (acc : β)
    (h : ∀ b a, a ∈ l → f b a = g b a) : l.foldl f acc = l.foldl g acc := by
  induction l generalizing acc with
  | nil => rfl
  | cons x xs ih =>
    simp only [List.foldl_cons]
    rw [h acc x (by simp)]
    exact ih _ fun b a ha => h b a (by simp [ha])

theorem extraHoursByEmp_congr (today : Date) (durations : ShiftType → Int)
    (shifts : List StoredShift) (emps1 emps2 : List Emp)
    (h : ∀ k : Nat,
      (emps1.find? fun e => e.id == k).map Emp.target_hours
        = (emps2.find? fun e => e.id == k).map Emp.target_hours) :
    extraHoursByEmp today durations shifts emps1
      = extraHoursByEmp today durations shifts emps2 := by
  unfold extraHoursByEmp
  refine foldl_congr_fun _ _ _ _ fun acc p _ => ?_
  have hk := h p.1.1
  split
  · cases h1 : emps1.find? fun e => e.id == p.1.1 with
    | none =>
      rw [h1] at hk
      cases h2 : emps2.find? fun e => e.id == p.1.1 with
      | none => rfl
      | some e2 => rw [h2] at hk; simp at hk
    | some e1 =>
      rw [h1] at hk
      cases h2 : emps2.find? fun e => e.id == p.1.1 with
      | none => rw [h2] at hk; simp at hk
      | some e2 =>
        rw [h2] at hk
        simp at hk
        dsimp only
        rw [hk]
  · rfl

/-- C6 (amended): after the carry-over recompute, an employee's
`accumulated_hours` equals the recomputed positive-excess sum whenever the
employee has at least one completed month with positive excess (that is, the
employee appears in the recomputed extra map); all other employees keep their
previously stored `accumulated_hours` unchanged.  Repeated calls with
unchanged shift history are idempotent, since the recomputation reads only
targets and shift records, never the accumulated values it writes. -/
theorem c6_carryover_recompute (today : Date) (durations : ShiftType → Int)
    (shifts : List StoredShift) (employees : List Emp) :
    update_employee_statistics today durations shifts employees
      = employees.map (applyExtra (extraHoursByEmp today durations shifts employees))
    ∧ update_employee_statistics today durations shifts
        (update_employee_statistics today durations shifts employees)
      = update_employee_statistics today durations shifts employees := by
  have part1 : ∀ emps : List Emp,
      update_employee_statistics today durations shifts emps
        = emps.map (applyExtra (extraHoursByEmp today durations shifts emps)) := by
    intro emps
    unfold update_employee_statistics
    exact foldl_setAccum _ _ (extraHours_keys_nodup today durations shifts emps)
  refine ⟨part1 employees, ?_⟩
  have hextras : extraHoursByEmp today durations shifts
        (update_employee_statistics today durations shifts employees)
      = extraHoursByEmp today durations shifts employees := by
    refine extraHoursByEmp_congr _ _ _ _ _ fun k => ?_
    rw [part1 employees]
    exact find_map_target _ (applyExtra_id _) (applyExtra_target _) employees k
  rw [part1 (update_employee_statistics today durations shifts employees), hextras,
    part1 employees, List.map_map]
  refine List.map_congr_left fun e _ => ?_
  simp only [Function.comp_apply]
  exact applyExtra_idem _ e

/-- Lockstep invariant of generation: the ledger equals the input employees
with `assigned_hours` replaced by the total duration of their DB inserts. -/
def GenLockstep (shift_durations : ShiftType → Int) (employees_data : List Emp)
    (st : GenState) : Prop :=
  st.employees = employees_data.map fun e =>
    { e with assigned_hours := insertedHours shift_durations st.db_shifts e.id }

theorem insertedHours_append (sd : ShiftType → Int) (l1 l2 : List DbShift)
    (eid : Nat) :
    insertedHours sd (l1 ++ l2) eid
      = insertedHours sd l1 eid + insertedHours sd l2 eid := by
  unfold insertedHours
  rw [List.filter_append, List.map_append, List.sum_append]

theorem insertedHours_batch (sd : ShiftType → Int) (d : Date) (shift : ShiftType)
    (ids : List Nat) (eid : Nat) :
    insertedHours sd (ids.map fun i => (⟨d, shift, i⟩ : DbShift)) eid
      = sd shift * (ids.count eid) := by
  induction ids with
  | nil => simp [insertedHours]
  | cons i ids ih =>
    by_cases hi : i = eid
    · subst hi
      unfold insertedHours at *
      simp only [List.map_cons, List.filter_cons]
      rw [if_pos (by simp)]
      simp only [List.map_cons, List.sum_cons]
      rw [ih, List.count_cons, if_pos (by simp)]
      push_cast
      ring
    · unfold insertedHours at *
      simp only [List.map_cons, List.filter_cons]
      rw [if_neg (by simp only [beq_iff_eq]; exact hi)]
      rw [ih]
      have hcnt : (i :: ids).count eid = ids.count eid := by
        rw [List.count_cons]
        simp [hi, Ne.symm hi]
      rw [hcnt]

theorem commitAssigned_lockstep (sd : ShiftType → Int) (data : List Emp)
    (d : Date) (shift : ShiftType) (st : GenState) (assigned : List Emp)
    (h : GenLockstep sd data st) :
    GenLockstep sd data (commitAssigned sd d shift st assigned).1 := by
  unfold GenLockstep commitAssigned
  dsimp only
  rw [foldl_creditAssigned, h, List.map_map]
  refine List.map_congr_left fun e _ => ?_
  simp only [Function.comp_apply]
  have hins : insertedHours sd st.db_shifts e.id
        + sd shift * ((assigned.map Emp.id).count e.id)
      = insertedHours sd
          (st.db_shifts ++ (assigned.map Emp.id).map fun i => ⟨d, shift, i⟩) e.id := by
    rw [insertedHours_append, insertedHours_batch]
  rw [← hins]

theorem processShift_lockstep (absences : List Absence) (staffing : ShiftType → Nat)
    (sd : ShiftType → Int) (d : Date) (shift : ShiftType) (data : List Emp)
    (st st' : GenState) (names : List String)
    (h : GenLockstep sd data st)
    (hp : processShift absences staffing sd d shift st = some (st', names)) :
    GenLockstep sd data st' := by
  unfold processShift at hp
  by_cases he : (st.employees.filter fun e => !(is_employee_absent absences e.id d)).isEmpty
  · rw [if_pos he] at hp
    have hpair := Option.some.inj hp
    have hst : st' = { st with warnings_list := st.warnings_list ++ [.noEligible shift d] } :=
      (congrArg Prod.fst hpair).symm
    rw [hst]
    exact h
  · rw [if_neg he] at hp
    by_cases hlt : (sortedDesc (sort_key shift)
        (st.employees.filter fun e => !(is_employee_absent absences e.id d))).length
        < staffing shift
    · rw [if_pos hlt] at hp
      cases hs : sortedDesc (sort_key shift)
          (st.employees.filter fun e => !(is_employee_absent absences e.id d)) with
      | nil => rw [hs] at hp; cases hp
      | cons top rest =>
        rw [hs] at hp
        have hpair := Option.some.inj hp
        have hst : st' = (commitAssigned sd d shift
            { st with warnings_list := st.warnings_list ++ [.underStaffed shift d] }
            ((top :: rest)
              ++ List.replicate (staffing shift - (top :: rest).length) top)).1 :=
          (congrArg Prod.fst hpair).symm
        rw [hst]
        exact commitAssigned_lockstep sd data d shift _ _ h
    · rw [if_neg hlt] at hp
      have hpair := Option.some.inj hp
      have hst : st' = (commitAssigned sd d shift st
          ((sortedDesc (sort_key shift)
            (st.employees.filter fun e => !(is_employee_absent absences e.id d))).take
              (staffing shift))).1 :=
        (congrArg Prod.fst hpair).symm
      rw [hst]
      exact commitAssigned_lockstep sd data d shift _ _ h

theorem foldlM_option_preserve {α β : Type} (P : β → Prop) (f : β → α → Option β)
    (l : List α)
    (hstep : ∀ b a b', a ∈ l → f b a = some b' → P b → P b') :
    ∀ acc b', P acc → l.foldlM f acc = some b' → P b' := by
  induction l with
  | nil =>
    intro acc b' hacc hf
    simp only [List.foldlM_nil] at hf
    exact (Option.some.inj hf) ▸ hacc
  | cons x xs ih =>
    intro acc b' hacc hf
    simp only [List.foldlM_cons] at hf
    cases hfx : f acc x with
    | none => rw [hfx] at hf; cases hf
    | some b1 =>
      rw [hfx] at hf
      have hf' : xs.foldlM f b1 = some b' := hf
      exact ih (fun b a b2 ha => hstep b a b2 (by simp [ha]))
        b1 b' (hstep acc x b1 (by simp) hfx hacc) hf'

theorem processDay_lockstep (absences : List Absence) (staffing : ShiftType → Nat)
    (sd : ShiftType → Int) (festivities : Festivities) (d : Date)
    (data : List Emp) (st st' : GenState) (entry : Date × GenDay)
    (h : GenLockstep sd data st)
    (hp : processDay absences staffing sd festivities d st = some (st', entry)) :
    GenLockstep sd data st' := by
  unfold processDay at hp
  split at hp
  · have hpair := Option.some.inj hp
    have hst : st' = st := (congrArg Prod.fst hpair).symm
    rw [hst]; exact h
  · cases hf : shiftTypesList.foldlM
        (fun (acc : GenState × GenDay) shift =>
          match processShift absences staffing sd d shift acc.1 with
          | some (st', names) => some (st', acc.2 ++ [(shift, names)])
          | none => none)
        (st, ([] : GenDay)) with
    | none => rw [hf] at hp; cases hp
    | some p =>
      obtain ⟨st1, slots⟩ := p
      rw [hf] at hp
      dsimp only at hp
      have hpair := Option.some.inj hp
      have hst : st' = st1 := (congrArg Prod.fst hpair).symm
      rw [hst]
      refine foldlM_option_preserve
        (fun acc : GenState × GenDay => GenLockstep sd data acc.1) _ _
        ?_ (st, []) (st1, slots) h hf
      intro b a b' _ hab hb
      cases hps : processShift absences staffing sd d a b.1 with
      | none => rw [hps] at hab; cases hab
      | some q =>
        rw [hps] at hab
        have hpair2 := Option.some.inj hab
        have hb1 : b'.1 = q.1 := by rw [← hpair2]
        rw [hb1]
        exact processShift_lockstep absences staffing sd d a data b.1 q.1 q.2 hb
          (by rw [hps])

theorem generateDays_lockstep (absences : List Absence) (staffing : ShiftType → Nat)
    (sd : ShiftType → Int) (festivities : Festivities) (year month : Nat)
    (data : List Emp) (st : GenState)
    (out : GenState × List (Date × GenDay))
    (h : GenLockstep sd data st)
    (hp : generateDays absences staffing sd festivities year month st = some out) :
    GenLockstep sd data out.1 := by
  unfold generateDays at hp
  refine foldlM_option_preserve
    (fun acc : GenState × List (Date × GenDay) => GenLockstep sd data acc.1) _ _
    ?_ (st, []) out h hp
  intro b a b' _ hab hb
  cases hpd : processDay absences staffing sd festivities ⟨year, month, a + 1⟩ b.1 with
  | none => rw [hpd] at hab; cases hab
  | some q =>
    rw [hpd] at hab
    have hpair := Option.some.inj hab
    have hb1 : b'.1 = q.1 := by rw [← hpair]
    rw [hb1]
    exact processDay_lockstep absences staffing sd festivities ⟨year, month, a + 1⟩
      data b.1 q.1 q.2 hb (by rw [hpd])

/-- C1 (amended): the Roster Generator is a deterministic function of its
inputs returning the assignment and the warnings, but it is not free of side
effects: it performs one `add_shift` database insert per assignment occurrence
while generating (besides the caller-side clear and snapshot save).  The
inserts mirror the returned values exactly: the final ledger equals the input
employees with `assigned_hours` set to the total duration of that employee's
inserted shift rows. -/
theorem c1_generation_writes_mirror_ledger (year month : Nat)
    (employees_data : List Emp) (staffing : ShiftType → Nat)
    (shift_durations : ShiftType → Int) (absences : List Absence)
    (festivities : Festivities) (r : GenResult)
    (h : generate_schedule year month employees_data staffing shift_durations
        absences festivities = .ok r) :
    r.employees = employees_data.map fun e =>
      { e with assigned_hours := insertedHours shift_durations r.db_shifts e.id } := by
  unfold generate_schedule at h
  split at h
  · cases h
  · dsimp only at h
    cases hg : generateDays absences staffing shift_durations festivities year month
        ⟨employees_data.map fun e => { e with assigned_hours := 0 }, [], []⟩ with
    | none =>
      rw [hg] at h
      simp at h
    | some p =>
      obtain ⟨st, sched⟩ := p
      rw [hg] at h
      dsimp only at h
      have hr := Except.ok.inj h
      have hlock : GenLockstep shift_durations employees_data st :=
        generateDays_lockstep absences staffing shift_durations festivities year month
          employees_data
          ⟨employees_data.map fun e => { e with assigned_hours := 0 }, [], []⟩
          (st, sched) (by unfold GenLockstep; rfl) hg
      rw [← hr]
      exact hlock

/-- Concrete generation run used by the C1 witness. -/
def c1Run : GenResult :=
  okResult (generate_schedule 2025 1 [c1Employee] defaultStaffing defaultDurations [] [])

theorem c1_generation_writes_mirror_ledger_witness :
    generate_schedule 2025 1 [c1Employee] defaultStaffing defaultDurations [] []
        = .ok c1Run
    ∧ c1Run.employees = [c1Employee].map fun e =>
        { e with assigned_hours := insertedHours defaultDurations c1Run.db_shifts e.id } :=
  ⟨rfl, c1_generation_writes_mirror_ledger 2025 1 [c1Employee] defaultStaffing
    defaultDurations [] [] c1Run rfl⟩

theorem find1_aux (absences : List Absence) (d : Date) (assigned_ids : List Nat)
    (shift : ShiftType) :
    ∀ (rest : EmpMap) (best : Int) (cand : Option Nat),
      (rest.foldl (find1Step absences d assigned_ids shift) (best, cand) = (best, cand)
        ∧ (∀ p ∈ rest, is_employee_absent absences p.1 d = false →
            assigned_ids.contains p.1 = false → pass1Score shift p.2 ≤ best))
      ∨ (∃ l1 c cd l2, rest = l1 ++ (c, cd) :: l2
          ∧ is_employee_absent absences c d = false
          ∧ assigned_ids.contains c = false
          ∧ best < pass1Score shift cd
          ∧ rest.foldl (find1Step absences d assigned_ids shift) (best, cand)
              = (pass1Score shift cd, some c)
          ∧ (∀ p ∈ l1, is_employee_absent absences p.1 d = false →
              assigned_ids.contains p.1 = false →
              pass1Score shift p.2 < pass1Score shift cd)
          ∧ (∀ p ∈ l2, is_employee_absent absences p.1 d = false →
              assigned_ids.contains p.1 = false →
              pass1Score shift p.2 ≤ pass1Score shift cd)) := by
  intro rest
  induction rest with
  | nil =>
    intro best cand
    exact Or.inl ⟨rfl, by intro p hp; simp at hp⟩
  | cons p rest ih =>
    intro best cand
    by_cases habs : is_employee_absent absences p.1 d
    · have hstep : find1Step absences d assigned_ids shift (best, cand) p = (best, cand) := by
        unfold find1Step; rw [if_pos habs]
      rcases ih best cand with ⟨hfold, hbound⟩ | ⟨l1, c, cd, l2, heq, hc1, hc2, hlt, hfold, hb1, hb2⟩
      · refine Or.inl ⟨?_, ?_⟩
        · rw [List.foldl_cons, hstep, hfold]
        · intro q hq hq1 hq2
          rcases List.mem_cons.mp hq with rfl | hq'
          · rw [hq1] at habs; cases habs
          · exact hbound q hq' hq1 hq2
      · refine Or.inr ⟨p :: l1, c, cd, l2, by rw [heq]; rfl, hc1, hc2, hlt, ?_, ?_, hb2⟩
        · rw [List.foldl_cons, hstep, hfold]
        · intro q hq hq1 hq2
          rcases List.mem_cons.mp hq with rfl | hq'
          · rw [hq1] at habs; cases habs
          · exact hb1 q hq' hq1 hq2
    · by_cases hctn : assigned_ids.contains p.1
      · have hstep : find1Step absences d assigned_ids shift (best, cand) p = (best, cand) := by
          unfold find1Step
          rw [if_neg habs, if_pos hctn]
        rcases ih best cand with ⟨hfold, hbound⟩ | ⟨l1, c, cd, l2, heq, hc1, hc2, hlt, hfold, hb1, hb2⟩
        · refine Or.inl ⟨?_, ?_⟩
          · rw [List.foldl_cons, hstep, hfold]
          · intro q hq hq1 hq2
            rcases List.mem_cons.mp hq with rfl | hq'
            · rw [hq2] at hctn; cases hctn
            · exact hbound q hq' hq1 hq2
        · refine Or.inr ⟨p :: l1, c, cd, l2, by rw [heq]; rfl, hc1, hc2, hlt, ?_, ?_, hb2⟩
          · rw [List.foldl_cons, hstep, hfold]
          · intro q hq hq1 hq2
            rcases List.mem_cons.mp hq with rfl | hq'
            · rw [hq2] at hctn; cases hctn
            · exact hb1 q hq' hq1 hq2
      · have habs' : is_employee_absent absences p.1 d = false :=
          Bool.eq_false_iff.mpr habs
        have hctn' : assigned_ids.contains p.1 = false :=
          Bool.eq_false_iff.mpr hctn
        by_cases hlt : best < pass1Score shift p.2
        · have hstep : find1Step absences d assigned_ids shift (best, cand) p
              = (pass1Score shift p.2, some p.1) := by
            unfold find1Step
            rw [if_neg habs, if_neg hctn, if_pos hlt]
          rcases ih (pass1Score shift p.2) (some p.1) with
            ⟨hfold, hbound⟩ | ⟨l1, c, cd, l2, heq, hc1, hc2, hlt2, hfold, hb1, hb2⟩
          · refine Or.inr ⟨[], p.1, p.2, rest, by simp, habs', hctn', hlt, ?_, ?_, hbound⟩
            · rw [List.foldl_cons, hstep, hfold]
            · intro q hq; simp at hq
          · refine Or.inr ⟨p :: l1, c, cd, l2, by rw [heq]; rfl, hc1, hc2,
              lt_trans hlt hlt2, ?_, ?_, hb2⟩
            · rw [List.foldl_cons, hstep, hfold]
            · intro q hq hq1 hq2
              rcases List.mem_cons.mp hq with rfl | hq'
              · exact hlt2
              · exact hb1 q hq' hq1 hq2
        · have hstep : find1Step absences d assigned_ids shift (best, cand) p = (best, cand) := by
            unfold find1Step
            rw [if_neg habs, if_neg hctn, if_neg hlt]
          have hle : pass1Score shift p.2 ≤ best := le_of_not_lt hlt
          rcases ih best cand with ⟨hfold, hbound⟩ | ⟨l1, c, cd, l2, heq, hc1, hc2, hlt2, hfold, hb1, hb2⟩
          · refine Or.inl ⟨?_, ?_⟩
            · rw [List.foldl_cons, hstep, hfold]
            · intro q hq hq1 hq2
              rcases List.mem_cons.mp hq with rfl | hq'
              · exact hle
              · exact hbound q hq' hq1 hq2
          · refine Or.inr ⟨p :: l1, c, cd, l2, by rw [heq]; rfl, hc1, hc2, hlt2, ?_, ?_, hb2⟩
            · rw [List.foldl_cons, hstep, hfold]
            · intro q hq hq1 hq2
              rcases List.mem_cons.mp hq with rfl | hq'
              · exact lt_of_le_of_lt hle hlt2
              · exact hb1 q hq' hq1 hq2

/-- C2 (amended): in repair pass 1, an absent employee's record is rewritten to
the candidate produced by the replacement scan, and that scan chooses, among
employees not absent that date and not listed in the slot's occupant list as
computed at the start of the slot's scan (`assigned_ids`; employees placed by
earlier replacements within the same slot are NOT excluded and may be chosen
again), the candidate maximizing `remaining + preference * 10`, ties broken by
first-seen order over `emp_map`, provided the score exceeds the sentinel
`-1e9`; when every such employee scores at most the sentinel, no replacement is
made and the record is left unchanged. -/
theorem c2_pass1_replacement_choice (em : EmpMap) (absences : List Absence)
    (d : Date) (assigned_ids : List Nat) (shift : ShiftType) :
    (∀ c : Nat, findReplacement1 em absences d assigned_ids shift = some c →
      ∃ l1 cd l2, em = l1 ++ (c, cd) :: l2
        ∧ is_employee_absent absences c d = false
        ∧ assigned_ids.contains c = false
        ∧ -1000000000 < pass1Score shift cd
        ∧ (∀ p ∈ l1, is_employee_absent absences p.1 d = false →
            assigned_ids.contains p.1 = false →
            pass1Score shift p.2 < pass1Score shift cd)
        ∧ (∀ p ∈ l2, is_employee_absent absences p.1 d = false →
            assigned_ids.contains p.1 = false →
            pass1Score shift p.2 ≤ pass1Score shift cd))
    ∧ (findReplacement1 em absences d assigned_ids shift = none →
        ∀ p ∈ em, is_employee_absent absences p.1 d = false →
          assigned_ids.contains p.1 = false →
          pass1Score shift p.2 ≤ -1000000000)
    ∧ (∀ (dur : Int) (st : EmpMap × Nat) (r : SRec),
        (is_employee_absent absences r.emp_id d = false →
          pass1Step absences d shift dur assigned_ids st r = (st, r))
        ∧ (is_employee_absent absences r.emp_id d = true →
            findReplacement1 st.1 absences d assigned_ids shift = none →
            pass1Step absences d shift dur assigned_ids st r = (st, r))
        ∧ (∀ c : Nat, is_employee_absent absences r.emp_id d = true →
            findReplacement1 st.1 absences d assigned_ids shift = some c →
            pass1Step absences d shift dur assigned_ids st r
              = ((adjustAssigned (adjustAssigned st.1 r.emp_id (-dur)) c dur, st.2 + 1),
                 ⟨r.shift_id, c,
                  ((alookup (adjustAssigned (adjustAssigned st.1 r.emp_id (-dur)) c dur)
                      c).map EmpData.name).getD ""⟩))) := by
  refine ⟨?_, ?_, ?_⟩
  · intro c hc
    rcases find1_aux absences d assigned_ids shift em (-1000000000) none with
      ⟨hfold, _⟩ | ⟨l1, c', cd, l2, heq, hc1, hc2, hlt, hfold, hb1, hb2⟩
    · unfold findReplacement1 at hc
      rw [hfold] at hc
      cases hc
    · unfold findReplacement1 at hc
      rw [hfold] at hc
      have hcc : c' = c := Option.some.inj hc
      subst hcc
      exact ⟨l1, cd, l2, heq, hc1, hc2, hlt, hb1, hb2⟩
  · intro hnone p hp h1 h2
    rcases find1_aux absences d assigned_ids shift em (-1000000000) none with
      ⟨hfold, hbound⟩ | ⟨l1, c', cd, l2, heq, hc1, hc2, hlt, hfold, hb1, hb2⟩
    · exact hbound p hp h1 h2
    · unfold findReplacement1 at hnone
      rw [hfold] at hnone
      cases hnone
  · intro dur st r
    refine ⟨?_, ?_, ?_⟩
    · intro habs
      unfold pass1Step
      rw [habs]
      simp
    · intro habs hnone
      unfold pass1Step
      rw [habs, hnone]
      simp
    · intro c habs hsome
      unfold pass1Step
      rw [habs, hsome]
      simp

/-- Employee map used by the C2 witness: id 1 scores 10 (remaining 0, neutral
preference), id 2 scores 60 (remaining 50, neutral preference); id 9 is the
only slot occupant. -/
def c2WitnessMap : EmpMap :=
  [(1, ⟨"P", 0, 0, [], 0⟩), (2, ⟨"Q", 50, 0, [], 0⟩)]

theorem c2_pass1_replacement_choice_witness :
    findReplacement1 c2WitnessMap [] ⟨2025, 1, 1⟩ [9] ShiftType.Night = some 2
    ∧ ∃ l1 cd l2, c2WitnessMap = l1 ++ (2, cd) :: l2
        ∧ is_employee_absent [] 2 ⟨2025, 1, 1⟩ = false
        ∧ List.contains [9] 2 = false
        ∧ -1000000000 < pass1Score ShiftType.Night cd
        ∧ (∀ p ∈ l1, is_employee_absent [] p.1 ⟨2025, 1, 1⟩ = false →
            List.contains [9] p.1 = false →
            pass1Score ShiftType.Night p.2 < pass1Score ShiftType.Night cd)
        ∧ (∀ p ∈ l2, is_employee_absent [] p.1 ⟨2025, 1, 1⟩ = false →
            List.contains [9] p.1 = false →
            pass1Score ShiftType.Night p.2 ≤ pass1Score ShiftType.Night cd) :=
  ⟨by decide,
    (c2_pass1_replacement_choice c2WitnessMap [] ⟨2025, 1, 1⟩ [9] ShiftType.Night).1
      2 (by decide)⟩

theorem find2_aux (absences : List Absence) (d : Date) (assigned_ids : List Nat) :
    ∀ (rest : EmpMap) (best : Int) (cand : Option Nat),
      (rest.foldl (find2Step absences d assigned_ids) (best, cand) = (best, cand)
        ∧ (∀ p ∈ rest, is_employee_absent absences p.1 d = false →
            assigned_ids.contains p.1 = false →
            remainingOf p.2 ≤ best ∨ remainingOf p.2 ≤ 0))
      ∨ (∃ l1 c cd l2, rest = l1 ++ (c, cd) :: l2
          ∧ is_employee_absent absences c d = false
          ∧ assigned_ids.contains c = false
          ∧ 0 < remainingOf cd
          ∧ best < remainingOf cd
          ∧ rest.foldl (find2Step absences d assigned_ids) (best, cand)
              = (remainingOf cd, some c)
          ∧ (∀ p ∈ l1, is_employee_absent absences p.1 d = false →
              assigned_ids.contains p.1 = false →
              remainingOf p.2 < remainingOf cd ∨ remainingOf p.2 ≤ 0)
          ∧ (∀ p ∈ l2, is_employee_absent absences p.1 d = false →
              assigned_ids.contains p.1 = false →
              remainingOf p.2 ≤ remainingOf cd ∨ remainingOf p.2 ≤ 0)) := by
  intro rest
  induction rest with
  | nil =>
    intro best cand
    exact Or.inl ⟨rfl, by intro p hp; simp at hp⟩
  | cons p rest ih =>
    intro best cand
    by_cases habs : is_employee_absent absences p.1 d
    · have hstep : find2Step absences d assigned_ids (best, cand) p = (best, cand) := by
        unfold find2Step; rw [if_pos habs]
      rcases ih best cand with ⟨hfold, hbound⟩ |
        ⟨l1, c, cd, l2, heq, hc1, hc2, hpos, hlt, hfold, hb1, hb2⟩
      · refine Or.inl ⟨?_, ?_⟩
        · rw [List.foldl_cons, hstep, hfold]
        · intro q hq hq1 hq2
          rcases List.mem_cons.mp hq with rfl | hq'
          · rw [hq1] at habs; cases habs
          · exact hbound q hq' hq1 hq2
      · refine Or.inr ⟨p :: l1, c, cd, l2, by rw [heq]; rfl, hc1, hc2, hpos, hlt, ?_, ?_, hb2⟩
        · rw [List.foldl_cons, hstep, hfold]
        · intro q hq hq1 hq2
          rcases List.mem_cons.mp hq with rfl | hq'
          · rw [hq1] at habs; cases habs
          · exact hb1 q hq' hq1 hq2
    · by_cases hctn : assigned_ids.contains p.1
      · have hstep : find2Step absences d assigned_ids (best, cand) p = (best, cand) := by
          unfold find2Step
          rw [if_neg habs, if_pos hctn]
        rcases ih best cand with ⟨hfold, hbound⟩ |
          ⟨l1, c, cd, l2, heq, hc1, hc2, hpos, hlt, hfold, hb1, hb2⟩
        · refine Or.inl ⟨?_, ?_⟩
          · rw [List.foldl_cons, hstep, hfold]
          · intro q hq hq1 hq2
            rcases List.mem_cons.mp hq with rfl | hq'
            · rw [hq2] at hctn; cases hctn
            · exact hbound q hq' hq1 hq2
        · refine Or.inr ⟨p :: l1, c, cd, l2, by rw [heq]; rfl, hc1, hc2, hpos, hlt, ?_, ?_, hb2⟩
          · rw [List.foldl_cons, hstep, hfold]
          · intro q hq hq1 hq2
            rcases List.mem_cons.mp hq with rfl | hq'
            · rw [hq2] at hctn; cases hctn
            · exact hb1 q hq' hq1 hq2
      · have habs' : is_employee_absent absences p.1 d = false :=
          Bool.eq_false_iff.mpr habs
        have hctn' : assigned_ids.contains p.1 = false :=
          Bool.eq_false_iff.mpr hctn
        by_cases hcond : best < remainingOf p.2 ∧ 0 < remainingOf p.2
        · have hstep : find2Step absences d assigned_ids (best, cand) p
              = (remainingOf p.2, some p.1) := by
            unfold find2Step
            rw [if_neg habs, if_neg hctn, if_pos hcond]
          rcases ih (remainingOf p.2) (some p.1) with ⟨hfold, hbound⟩ |
            ⟨l1, c, cd, l2, heq, hc1, hc2, hpos, hlt2, hfold, hb1, hb2⟩
          · refine Or.inr ⟨[], p.1, p.2, rest, by simp, habs', hctn', hcond.2, hcond.1,
              ?_, ?_, hbound⟩
            · rw [List.foldl_cons, hstep, hfold]
            · intro q hq; simp at hq
          · refine Or.inr ⟨p :: l1, c, cd, l2, by rw [heq]; rfl, hc1, hc2, hpos,
              lt_trans hcond.1 hlt2, ?_, ?_, hb2⟩
            · rw [List.foldl_cons, hstep, hfold]
            · intro q hq hq1 hq2
              rcases List.mem_cons.mp hq with rfl | hq'
              · exact Or.inl hlt2
              · exact hb1 q hq' hq1 hq2
        · have hstep : find2Step absences d assigned_ids (best, cand) p = (best, cand) := by
            unfold find2Step
            rw [if_neg habs, if_neg hctn, if_neg hcond]
          have hle : remainingOf p.2 ≤ best ∨ remainingOf p.2 ≤ 0 := by
            rcases not_and_or.mp hcond with h | h
            · exact Or.inl (le_of_not_lt h)
            · exact Or.inr (le_of_not_lt h)
          rcases ih best cand with ⟨hfold, hbound⟩ |
            ⟨l1, c, cd, l2, heq, hc1, hc2, hpos, hlt2, hfold, hb1, hb2⟩
          · refine Or.inl ⟨?_, ?_⟩
            · rw [List.foldl_cons, hstep, hfold]
            · intro q hq hq1 hq2
              rcases List.mem_cons.mp hq with rfl | hq'
              · exact hle
              · exact hbound q hq' hq1 hq2
          · refine Or.inr ⟨p :: l1, c, cd, l2, by rw [heq]; rfl, hc1, hc2, hpos, hlt2,
              ?_, ?_, hb2⟩
            · rw [List.foldl_cons, hstep, hfold]
            · intro q hq hq1 hq2
              rcases List.mem_cons.mp hq with rfl | hq'
              · rcases hle with h | h
                · exact Or.inl (lt_of_le_of_lt h hlt2)
                · exact Or.inr h
              · exact hb1 q hq' hq1 hq2

/-- C5 (amended): in repair pass 2, a record is rewritten only when the
assigned employee's remaining hours, computed on the ledger as it stands when
the record is scanned (it starts at the post-pass-1 state and incorporates
earlier pass-2 rewrites), is strictly below -5; the replacement chosen by the
scan is not absent that date, is not in the slot's occupant list as computed
at the start of the slot's pass-2 scan, and has strictly positive remaining
hours maximal among scanned eligible candidates (ties broken by first-seen
order); when no eligible candidate has strictly positive remaining hours the
record is left unchanged. -/
theorem c5_pass2_rewrite_condition (em : EmpMap) (absences : List Absence)
    (d : Date) (assigned_ids : List Nat) :
    (∀ c : Nat, findReplacement2 em absences d assigned_ids = some c →
      ∃ l1 cd l2, em = l1 ++ (c, cd) :: l2
        ∧ is_employee_absent absences c d = false
        ∧ assigned_ids.contains c = false
        ∧ 0 < remainingOf cd
        ∧ (∀ p ∈ l1, is_employee_absent absences p.1 d = false →
            assigned_ids.contains p.1 = false →
            remainingOf p.2 < remainingOf cd ∨ remainingOf p.2 ≤ 0)
        ∧ (∀ p ∈ l2, is_employee_absent absences p.1 d = false →
            assigned_ids.contains p.1 = false →
            remainingOf p.2 ≤ remainingOf cd ∨ remainingOf p.2 ≤ 0))
    ∧ (findReplacement2 em absences d assigned_ids = none →
        ∀ p ∈ em, is_employee_absent absences p.1 d = false →
          assigned_ids.contains p.1 = false → remainingOf p.2 ≤ 0)
    ∧ (∀ (dur : Int) (st : EmpMap × Nat) (r : SRec),
        (¬ remainingOf ((alookup st.1 r.emp_id).getD ⟨"", 0, 0, [], 0⟩) < -5 →
          pass2Step absences d dur assigned_ids st r = (st, r))
        ∧ (remainingOf ((alookup st.1 r.emp_id).getD ⟨"", 0, 0, [], 0⟩) < -5 →
            findReplacement2 st.1 absences d assigned_ids = none →
            pass2Step absences d dur assigned_ids st r = (st, r))
        ∧ (∀ c : Nat,
            remainingOf ((alookup st.1 r.emp_id).getD ⟨"", 0, 0, [], 0⟩) < -5 →
            findReplacement2 st.1 absences d assigned_ids = some c →
            pass2Step absences d dur assigned_ids st r
              = ((adjustAssigned (adjustAssigned st.1 r.emp_id (-dur)) c dur, st.2 + 1),
                 ⟨r.shift_id, c,
                  ((alookup (adjustAssigned (adjustAssigned st.1 r.emp_id (-dur)) c dur)
                      c).map EmpData.name).getD ""⟩))) := by
  refine ⟨?_, ?_, ?_⟩
  · intro c hc
    rcases find2_aux absences d assigned_ids em (-1000000000) none with
      ⟨hfold, _⟩ | ⟨l1, c', cd, l2, heq, hc1, hc2, hpos, hlt, hfold, hb1, hb2⟩
    · unfold findReplacement2 at hc
      rw [hfold] at hc
      cases hc
    · unfold findReplacement2 at hc
      rw [hfold] at hc
      have hcc : c' = c := Option.some.inj hc
      subst hcc
      exact ⟨l1, cd, l2, heq, hc1, hc2, hpos, hb1, hb2⟩
  · intro hnone p hp h1 h2
    rcases find2_aux absences d assigned_ids em (-1000000000) none with
      ⟨hfold, hbound⟩ | ⟨l1, c', cd, l2, heq, hc1, hc2, hpos, hlt, hfold, hb1, hb2⟩
    · rcases hbound p hp h1 h2 with h | h
      · omega
      · exact h
    · unfold findReplacement2 at hnone
      rw [hfold] at hnone
      cases hnone
  · intro dur st r
    refine ⟨?_, ?_, ?_⟩
    · intro hnl
      unfold pass2Step
      rw [if_neg hnl]
    · intro hl hnone
      unfold pass2Step
      rw [if_pos hl, hnone]
    · intro c hl hsome
      unfold pass2Step
      rw [if_pos hl, hsome]

/-- Employee map used by the C5 witness: id 1 has remaining -10, id 2 has
remaining 5; no occupants excluded. -/
def c5WitnessMap : EmpMap :=
  [(1, ⟨"P", 0, 10, [], 0⟩), (2, ⟨"Q", 5, 0, [], 0⟩)]

theorem c5_pass2_rewrite_condition_witness :
    findReplacement2 c5WitnessMap [] ⟨2025, 1, 1⟩ [] = some 2
    ∧ ∃ l1 cd l2, c5WitnessMap = l1 ++ (2, cd) :: l2
        ∧ is_employee_absent [] 2 ⟨2025, 1, 1⟩ = false
        ∧ List.contains ([] : List Nat) 2 = false
        ∧ 0 < remainingOf cd
        ∧ (∀ p ∈ l1, is_employee_absent [] p.1 ⟨2025, 1, 1⟩ = false →
            List.contains ([] : List Nat) p.1 = false →
            remainingOf p.2 < remainingOf cd ∨ remainingOf p.2 ≤ 0)
        ∧ (∀ p ∈ l2, is_employee_absent [] p.1 ⟨2025, 1, 1⟩ = false →
            List.contains ([] : List Nat) p.1 = false →
            remainingOf p.2 ≤ remainingOf cd ∨ remainingOf p.2 ≤ 0) :=
  ⟨by decide,
    (c5_pass2_rewrite_condition c5WitnessMap [] ⟨2025, 1, 1⟩ []).1 2 (by decide)⟩

theorem setA_self {κ β : Type} [DecidableEq κ] (l : List (κ × β)) (k : κ) (v : β)
    (h : alookup l k = some v) : setA l k v = l := by
  induction l with
  | nil => cases h
  | cons p ps ih =>
    unfold alookup at h
    unfold setA
    split
    · rename_i hpk
      rw [if_pos hpk] at h
      have hv := Option.some.inj h
      rw [← hv, ← hpk]
    · rename_i hpk
      rw [if_neg hpk] at h
      rw [ih h]

theorem foldl_mono_identity {α β : Type} (f : β → Nat) (g : β → α → β) (l : List α)
    (hstep : ∀ b a, f b ≤ f (g b a) ∧ (f (g b a) = f b → g b a = b)) :
    ∀ b, f b ≤ f (l.foldl g b) ∧ (f (l.foldl g b) = f b → l.foldl g b = b) := by
  induction l with
  | nil => intro b; exact ⟨Nat.le_refl _, fun _ => rfl⟩
  | cons x xs ih =>
    intro b
    simp only [List.foldl_cons]
    have h1 := hstep b x
    have h2 := ih (g b x)
    refine ⟨Nat.le_trans h1.1 h2.1, ?_⟩
    intro h
    have hx : f (g b x) = f b := Nat.le_antisymm (h ▸ h2.1) h1.1
    have hgb : g b x = b := h1.2 hx
    rw [hgb] at h ⊢
    exact (ih b).2 h

theorem pass1Step_changes (absences : List Absence) (d : Date) (shift : ShiftType)
    (dur : Int) (assigned_ids : List Nat) (st : EmpMap × Nat) (r : SRec) :
    st.2 ≤ (pass1Step absences d shift dur assigned_ids st r).1.2
    ∧ ((pass1Step absences d shift dur assigned_ids st r).1.2 = st.2 →
        pass1Step absences d shift dur assigned_ids st r = (st, r)) := by
  unfold pass1Step
  split
  · split
    · refine ⟨Nat.le_succ _, ?_⟩
      intro h
      exact absurd h (Nat.succ_ne_self st.2)
    · exact ⟨Nat.le_refl _, fun _ => rfl⟩
  · exact ⟨Nat.le_refl _, fun _ => rfl⟩

theorem pass1Recs_changes (absences : List Absence) (d : Date) (shift : ShiftType)
    (dur : Int) (assigned_ids : List Nat) :
    ∀ (recs : SlotRecs) (st : EmpMap × Nat),
      st.2 ≤ (pass1Recs absences d shift dur assigned_ids st recs).1.2
      ∧ ((pass1Recs absences d shift dur assigned_ids st recs).1.2 = st.2 →
          pass1Recs absences d shift dur assigned_ids st recs = (st, recs)) := by
  intro recs
  induction recs with
  | nil => intro st; exact ⟨Nat.le_refl _, fun _ => rfl⟩
  | cons r rs ih =>
    intro st
    have hstep := pass1Step_changes absences d shift dur assigned_ids st r
    have hrest := ih (pass1Step absences d shift dur assigned_ids st r).1
    show st.2 ≤ (pass1Recs absences d shift dur assigned_ids
        (pass1Step absences d shift dur assigned_ids st r).1 rs).1.2 ∧ _
    refine ⟨Nat.le_trans hstep.1 hrest.1, ?_⟩
    intro h
    have hx : (pass1Step absences d shift dur assigned_ids st r).1.2 = st.2 :=
      Nat.le_antisymm (h ▸ hrest.1) hstep.1
    have hstep' := hstep.2 hx
    have hfst : (pass1Step absences d shift dur assigned_ids st r).1 = st := by
      rw [hstep']
    have h2 : (pass1Recs absences d shift dur assigned_ids
        (pass1Step absences d shift dur assigned_ids st r).1 rs).1.2 = st.2 := h
    rw [hfst] at h2
    unfold pass1Recs
    rw [hstep']
    dsimp only
    rw [(ih st).2 h2]

theorem pass1Day_step (absences : List Absence) (shift_durations : ShiftType → Int)
    (d : Date) (b : (EmpMap × Nat) × DaySched) (shift : ShiftType) :
    b.1.2 ≤ ((fun (acc : (EmpMap × Nat) × DaySched) shift =>
        match alookup acc.2 shift with
        | none => acc
        | some recs =>
          let out := pass1Slot absences d shift (shift_durations shift) acc.1 recs
          (out.1, setA acc.2 shift out.2)) b shift).1.2
    ∧ (((fun (acc : (EmpMap × Nat) × DaySched) shift =>
        match alookup acc.2 shift with
        | none => acc
        | some recs =>
          let out := pass1Slot absences d shift (shift_durations shift) acc.1 recs
          (out.1, setA acc.2 shift out.2)) b shift).1.2 = b.1.2 →
        ((fun (acc : (EmpMap × Nat) × DaySched) shift =>
        match alookup acc.2 shift with
        | none => acc
        | some recs =>
          let out := pass1Slot absences d shift (shift_durations shift) acc.1 recs
          (out.1, setA acc.2 shift out.2)) b shift) = b) := by
  cases hl : alookup b.2 shift with
  | none =>
    simp only [hl]
    exact ⟨Nat.le_refl _, fun _ => by trivial⟩
  | some recs =>
    simp only [hl]
    have hrecs := pass1Recs_changes absences d shift (shift_durations shift)
      (recs.map SRec.emp_id) recs b.1
    refine ⟨hrecs.1, ?_⟩
    intro h
    have hid := hrecs.2 h
    unfold pass1Slot
    rw [hid]
    rw [setA_self b.2 shift recs hl]

theorem pass1_changes (absences : List Absence) (shift_durations : ShiftType → Int)
    (year month : Nat) (st : EmpMap × Nat) (sched : Sched) :
    st.2 ≤ (pass1 absences shift_durations year month st sched).1.2
    ∧ ((pass1 absences shift_durations year month st sched).1.2 = st.2 →
        pass1 absences shift_durations year month st sched = (st, sched)) := by
  unfold pass1
  have hday : ∀ (b : (EmpMap × Nat) × Sched) (i : Nat),
      b.1.2 ≤ ((fun (acc : (EmpMap × Nat) × Sched) i =>
          match alookup acc.2 (⟨year, month, i + 1⟩ : Date) with
          | none => acc
          | some ds =>
            let out := pass1Day absences shift_durations ⟨year, month, i + 1⟩ acc.1 ds
            (out.1, setA acc.2 ⟨year, month, i + 1⟩ out.2)) b i).1.2
      ∧ (((fun (acc : (EmpMap × Nat) × Sched) i =>
          match alookup acc.2 (⟨year, month, i + 1⟩ : Date) with
          | none => acc
          | some ds =>
            let out := pass1Day absences shift_durations ⟨year, month, i + 1⟩ acc.1 ds
            (out.1, setA acc.2 ⟨year, month, i + 1⟩ out.2)) b i).1.2 = b.1.2 →
          ((fun (acc : (EmpMap × Nat) × Sched) i =>
          match alookup acc.2 (⟨year, month, i + 1⟩ : Date) with
          | none => acc
          | some ds =>
            let out := pass1Day absences shift_durations ⟨year, month, i + 1⟩ acc.1 ds
            (out.1, setA acc.2 ⟨year, month, i + 1⟩ out.2)) b i) = b) := by
    intro b i
    cases hl : alookup b.2 (⟨year, month, i + 1⟩ : Date) with
    | none =>
      simp only [hl]
      exact ⟨Nat.le_refl _, fun _ => by trivial⟩
    | some ds =>
      simp only [hl]
      have hd : b.1.2 ≤ (pass1Day absences shift_durations ⟨year, month, i + 1⟩ b.1 ds).1.2
          ∧ ((pass1Day absences shift_durations ⟨year, month, i + 1⟩ b.1 ds).1.2 = b.1.2 →
              pass1Day absences shift_durations ⟨year, month, i + 1⟩ b.1 ds = (b.1, ds)) := by
        unfold pass1Day
        exact foldl_mono_identity (fun q => q.1.2) _ shiftTypesList
          (pass1Day_step absences shift_durations ⟨year, month, i + 1⟩) (b.1, ds)
      refine ⟨hd.1, ?_⟩
      intro h
      have hid := hd.2 h
      rw [hid]
      rw [setA_self b.2 _ ds hl]
  exact foldl_mono_identity (fun q => q.1.2) _ _ hday (st, sched)

theorem pass2Step_changes (absences : List Absence) (d : Date) (dur : Int)
    (assigned_ids : List Nat) (st : EmpMap × Nat) (r : SRec) :
    st.2 ≤ (pass2Step absences d dur assigned_ids st r).1.2
    ∧ ((pass2Step absences d dur assigned_ids st r).1.2 = st.2 →
        pass2Step absences d dur assigned_ids st r = (st, r)) := by
  unfold pass2Step
  dsimp only
  split
  · split
    · refine ⟨Nat.le_succ _, ?_⟩
      intro h
      exact absurd h (Nat.succ_ne_self st.2)
    · exact ⟨Nat.le_refl _, fun _ => rfl⟩
  · exact ⟨Nat.le_refl _, fun _ => rfl⟩

theorem pass2Recs_changes (absences : List Absence) (d : Date) (dur : Int)
    (assigned_ids : List Nat) :
    ∀ (recs : SlotRecs) (st : EmpMap × Nat),
      st.2 ≤ (pass2Recs absences d dur assigned_ids st recs).1.2
      ∧ ((pass2Recs absences d dur assigned_ids st recs).1.2 = st.2 →
          pass2Recs absences d dur assigned_ids st recs = (st, recs)) := by
  intro recs
  induction recs with
  | nil => intro st; exact ⟨Nat.le_refl _, fun _ => rfl⟩
  | cons r rs ih =>
    intro st
    have hstep := pass2Step_changes absences d dur assigned_ids st r
    have hrest := ih (pass2Step absences d dur assigned_ids st r).1
    show st.2 ≤ (pass2Recs absences d dur assigned_ids
        (pass2Step absences d dur assigned_ids st r).1 rs).1.2 ∧ _
    refine ⟨Nat.le_trans hstep.1 hrest.1, ?_⟩
    intro h
    have hx : (pass2Step absences d dur assigned_ids st r).1.2 = st.2 :=
      Nat.le_antisymm (h ▸ hrest.1) hstep.1
    have hstep' := hstep.2 hx
    have hfst : (pass2Step absences d dur assigned_ids st r).1 = st := by
      rw [hstep']
    have h2 : (pass2Recs absences d dur assigned_ids
        (pass2Step absences d dur assigned_ids st r).1 rs).1.2 = st.2 := h
    rw [hfst] at h2
    unfold pass2Recs
    rw [hstep']
    dsimp only
    rw [(ih st).2 h2]

theorem pass2Day_step (absences : List Absence) (shift_durations : ShiftType → Int)
    (d : Date) (b : (EmpMap × Nat) × DaySched) (shift : ShiftType) :
    b.1.2 ≤ ((fun (acc : (EmpMap × Nat) × DaySched) shift =>
        match alookup acc.2 shift with
        | none => acc
        | some recs =>
          let out := pass2Slot absences d (shift_durations shift) acc.1 recs
          (out.1, setA acc.2 shift out.2)) b shift).1.2
    ∧ (((fun (acc : (EmpMap × Nat) × DaySched) shift =>
        match alookup acc.2 shift with
        | none => acc
        | some recs =>
          let out := pass2Slot absences d (shift_durations shift) acc.1 recs
          (out.1, setA acc.2 shift out.2)) b shift).1.2 = b.1.2 →
        ((fun (acc : (EmpMap × Nat) × DaySched) shift =>
        match alookup acc.2 shift with
        | none => acc
        | some recs =>
          let out := pass2Slot absences d (shift_durations shift) acc.1 recs
          (out.1, setA acc.2 shift out.2)) b shift) = b) := by
  cases hl : alookup b.2 shift with
  | none =>
    simp only [hl]
    exact ⟨Nat.le_refl _, fun _ => by trivial⟩
  | some recs =>
    simp only [hl]
    have hrecs := pass2Recs_changes absences d (shift_durations shift)
      (recs.map SRec.emp_id) recs b.1
    refine ⟨hrecs.1, ?_⟩
    intro h
    have hid := hrecs.2 h
    unfold pass2Slot
    rw [hid]
    rw [setA_self b.2 shift recs hl]

theorem pass2_changes (absences : List Absence) (shift_durations : ShiftType → Int)
    (year month : Nat) (st : EmpMap × Nat) (sched : Sched) :
    st.2 ≤ (pass2 absences shift_durations year month st sched).1.2
    ∧ ((pass2 absences shift_durations year month st sched).1.2 = st.2 →
        pass2 absences shift_durations year month st sched = (st, sched)) := by
  unfold pass2
  have hday : ∀ (b : (EmpMap × Nat) × Sched) (i : Nat),
      b.1.2 ≤ ((fun (acc : (EmpMap × Nat) × Sched) i =>
          match alookup acc.2 (⟨year, month, i + 1⟩ : Date) with
          | none => acc
          | some ds =>
            let out := pass2Day absences shift_durations ⟨year, month, i + 1⟩ acc.1 ds
            (out.1, setA acc.2 ⟨year, month, i + 1⟩ out.2)) b i).1.2
      ∧ (((fun (acc : (EmpMap × Nat) × Sched) i =>
          match alookup acc.2 (⟨year, month, i + 1⟩ : Date) with
          | none => acc
          | some ds =>
            let out := pass2Day absences shift_durations ⟨year, month, i + 1⟩ acc.1 ds
            (out.1, setA acc.2 ⟨year, month, i + 1⟩ out.2)) b i).1.2 = b.1.2 →
          ((fun (acc : (EmpMap × Nat) × Sched) i =>
          match alookup acc.2 (⟨year, month, i + 1⟩ : Date) with
          | none => acc
          | some ds =>
            let out := pass2Day absences shift_durations ⟨year, month, i + 1⟩ acc.1 ds
            (out.1, setA acc.2 ⟨year, month, i + 1⟩ out.2)) b i) = b) := by
    intro b i
    cases hl : alookup b.2 (⟨year, month, i + 1⟩ : Date) with
    | none =>
      simp only [hl]
      exact ⟨Nat.le_refl _, fun _ => by trivial⟩
    | some ds =>
      simp only [hl]
      have hd : b.1.2 ≤ (pass2Day absences shift_durations ⟨year, month, i + 1⟩ b.1 ds).1.2
          ∧ ((pass2Day absences shift_durations ⟨year, month, i + 1⟩ b.1 ds).1.2 = b.1.2 →
              pass2Day absences shift_durations ⟨year, month, i + 1⟩ b.1 ds = (b.1, ds)) := by
        unfold pass2Day
        exact foldl_mono_identity (fun q => q.1.2) _ shiftTypesList
          (pass2Day_step absences shift_durations ⟨year, month, i + 1⟩) (b.1, ds)
      refine ⟨hd.1, ?_⟩
      intro h
      have hid := hd.2 h
      rw [hid]
      rw [setA_self b.2 _ ds hl]
  exact foldl_mono_identity (fun q => q.1.2) _ _ hday (st, sched)

/-- C4 (amended): the Roster Repairer is idempotent at its fixed points: when
a repair run reports `changes = 0`, the roster is unchanged and a second run on
its output reproduces the first run exactly (in particular with `changes = 0`).
In general a second run may report further changes — see the counterexample,
where pass 2 over-assigns its own replacement. -/
theorem c4_repair_fixed_point (year month : Nat) (sched : Sched)
    (employees_data : List Emp) (absences : List Absence)
    (shift_durations : ShiftType → Int)
    (h : (update_schedule year month sched employees_data absences
        shift_durations).changes = 0) :
    update_schedule year month
        (update_schedule year month sched employees_data absences
          shift_durations).schedule
        employees_data absences shift_durations
      = update_schedule year month sched employees_data absences shift_durations := by
  have hsched : (update_schedule year month sched employees_data absences
      shift_durations).schedule = sched := by
    unfold update_schedule at h ⊢
    dsimp only at h ⊢
    have h1 := pass1_changes absences shift_durations year month
      (seedAssigned shift_durations sched (initialEmpMap employees_data), 0) sched
    have h2 := pass2_changes absences shift_durations year month
      (pass1 absences shift_durations year month
        (seedAssigned shift_durations sched (initialEmpMap employees_data), 0) sched).1
      (pass1 absences shift_durations year month
        (seedAssigned shift_durations sched (initialEmpMap employees_data), 0) sched).2
    have hz1 : (pass1 absences shift_durations year month
        (seedAssigned shift_durations sched (initialEmpMap employees_data), 0)
        sched).1.2 = 0 := by
      have hle := Nat.le_trans h1.1 h2.1
      omega
    have hid1 := h1.2 hz1
    rw [hid1] at h2 h ⊢
    have hz2 : (pass2 absences shift_durations year month
        (seedAssigned shift_durations sched (initialEmpMap employees_data), 0)
        sched).1.2 = 0 := h
    have hid2 := h2.2 (by rw [hz2])
    rw [hid2]
  rw [hsched]

/-- A repair run on the empty roster makes no changes, so the fixed-point
theorem applies to it. -/
theorem c4_repair_fixed_point_witness :
    (update_schedule 2025 1 [] [] [] defaultDurations).changes = 0
    ∧ update_schedule 2025 1
        (update_schedule 2025 1 [] [] [] defaultDurations).schedule
        [] [] defaultDurations
      = update_schedule 2025 1 [] [] [] defaultDurations :=
  ⟨by decide, c4_repair_fixed_point 2025 1 [] [] [] defaultDurations (by decide)⟩

/-- The counting property of one statistics row: the festive counters total
exactly the employee's shifts on dates with a `false` festivity override, the
normal counters all the others. -/
def countsMatch (festivity_map : Festivities) (durations : ShiftType → Int)
    (eid : Nat) (st : EmpStats) (l : List ShiftRow) : Prop :=
  st.fest_shifts = (l.filter fun t =>
      t.emp_id == eid && isFestive festivity_map t.shift_date).length
  ∧ st.fest_hours = ((l.filter fun t =>
      t.emp_id == eid && isFestive festivity_map t.shift_date).map
        fun t => durations t.shift_type).sum
  ∧ st.normal_shifts = (l.filter fun t =>
      t.emp_id == eid && !(isFestive festivity_map t.shift_date)).length
  ∧ st.normal_hours = ((l.filter fun t =>
      t.emp_id == eid && !(isFestive festivity_map t.shift_date)).map
        fun t => durations t.shift_type).sum

theorem alookup_cons {κ β : Type} [DecidableEq κ] (p : κ × β) (ps : List (κ × β))
    (k : κ) : alookup (p :: ps) k = if p.1 = k then some p.2 else alookup ps k := rfl

theorem alookup_isSome_iff {κ β : Type} [DecidableEq κ] (l : List (κ × β)) (k : κ) :
    (alookup l k).isSome = true ↔ k ∈ l.map Prod.fst := by
  constructor
  · intro hs
    by_contra hk
    rw [(alookup_eq_none l k).mpr hk] at hs
    simp at hs
  · intro hk
    cases h : alookup l k with
    | some v => rfl
    | none => exact absurd hk ((alookup_eq_none l k).mp h)

theorem alookup_append_some {κ β : Type} [DecidableEq κ] (l1 l2 : List (κ × β))
    (k : κ) (v : β) (h : alookup l1 k = some v) : alookup (l1 ++ l2) k = some v := by
  induction l1 with
  | nil => cases h
  | cons p ps ih =>
    rw [alookup_cons] at h
    rw [List.cons_append, alookup_cons]
    split at h
    · rename_i hpk
      rw [if_pos hpk]
      exact h
    · rename_i hpk
      rw [if_neg hpk]
      exact ih h

theorem alookup_append_none {κ β : Type} [DecidableEq κ] (l1 l2 : List (κ × β))
    (k : κ) (h : alookup l1 k = none) : alookup (l1 ++ l2) k = alookup l2 k := by
  induction l1 with
  | nil => rfl
  | cons p ps ih =>
    rw [alookup_cons] at h
    rw [List.cons_append, alookup_cons]
    split at h
    · cases h
    · rename_i hpk
      rw [if_neg hpk]
      exact ih h

theorem alookup_map_fst_preserving {κ β : Type} [DecidableEq κ]
    (g : κ × β → κ × β) (hg : ∀ p, (g p).1 = p.1) (l : List (κ × β)) :
    (l.map g).map Prod.fst = l.map Prod.fst := by
  rw [List.map_map]
  exact List.map_congr_left fun p _ => hg p

theorem countsMatch_bump (festivity_map : Festivities) (durations : ShiftType → Int)
    (s : ShiftRow) (processed : List ShiftRow) (eid : Nat) (st : EmpStats)
    (h : countsMatch festivity_map durations eid st processed) (hk : eid = s.emp_id) :
    countsMatch festivity_map durations eid
      (bumpShift durations festivity_map s st) (processed ++ [s]) := by
  subst hk
  obtain ⟨h1, h2, h3, h4⟩ := h
  unfold countsMatch bumpShift
  by_cases hf : isFestive festivity_map s.shift_date
  · rw [if_pos hf]
    refine ⟨?_, ?_, ?_, ?_⟩ <;>
      simp [List.filter_append, List.filter_cons, hf, h1, h2, h3, h4]
  · rw [if_neg hf]
    refine ⟨?_, ?_, ?_, ?_⟩ <;>
      simp [List.filter_append, List.filter_cons, hf, h1, h2, h3, h4]

theorem countsMatch_skip (festivity_map : Festivities) (durations : ShiftType → Int)
    (s : ShiftRow) (processed : List ShiftRow) (eid : Nat) (st : EmpStats)
    (h : countsMatch festivity_map durations eid st processed) (hk : eid ≠ s.emp_id) :
    countsMatch festivity_map durations eid st (processed ++ [s]) := by
  obtain ⟨h1, h2, h3, h4⟩ := h
  unfold countsMatch
  have hbeq : (s.emp_id == eid) = false := by
    simp only [beq_eq_false_iff_ne]
    exact Ne.symm hk
  refine ⟨?_, ?_, ?_, ?_⟩ <;>
    simp [List.filter_append, List.filter_cons, hbeq, h1, h2, h3, h4]

theorem countsMatch_zero (festivity_map : Festivities) (durations : ShiftType → Int)
    (processed : List ShiftRow) (eid : Nat) (nm : String) (tg ac : Int)
    (h : ∀ t ∈ processed, t.emp_id ≠ eid) :
    countsMatch festivity_map durations eid ⟨nm, 0, 0, 0, 0, tg, ac⟩ processed := by
  have hnil : ∀ q : ShiftRow → Bool,
      processed.filter (fun t => t.emp_id == eid && q t) = [] := by
    intro q
    rw [List.filter_eq_nil_iff]
    intro t ht
    simp only [Bool.and_eq_true, beq_iff_eq, not_and]
    intro he
    exact absurd he (h t ht)
  refine ⟨?_, ?_, ?_, ?_⟩ <;> simp [hnil]

theorem statsFold (festivity_map : Festivities) (durations : ShiftType → Int)
    (all_employees : List Emp) :
    ∀ (rest processed : List ShiftRow) (acc : List (Nat × EmpStats)),
      (∀ p ∈ acc, countsMatch festivity_map durations p.1 p.2 processed) →
      (∀ t ∈ processed, (alookup acc t.emp_id).isSome = true) →
      (∀ t ∈ rest, (all_employees.find? fun e => e.id == t.emp_id).isSome = true) →
      ∃ out, rest.foldlM (statsStep durations festivity_map all_employees) acc
          = some out
        ∧ (∀ p ∈ out, countsMatch festivity_map durations p.1 p.2 (processed ++ rest))
        ∧ (∀ t ∈ processed ++ rest, (alookup out t.emp_id).isSome = true) := by
  intro rest
  induction rest with
  | nil =>
    intro processed acc hcounts hkeys _
    exact ⟨acc, by simp, by simpa using hcounts, by simpa using hkeys⟩
  | cons s rest ih =>
    intro processed acc hcounts hkeys hfind
    have hcont : ∀ acc1 : List (Nat × EmpStats),
        (∀ p ∈ acc1, countsMatch festivity_map durations p.1 p.2 processed) →
        (∀ t ∈ processed, (alookup acc1 t.emp_id).isSome = true) →
        (alookup acc1 s.emp_id).isSome = true →
        ∃ out, rest.foldlM (statsStep durations festivity_map all_employees)
            (acc1.map fun p =>
              if p.1 = s.emp_id then
                (p.1, bumpShift durations festivity_map s p.2)
              else p) = some out
          ∧ (∀ p ∈ out, countsMatch festivity_map durations p.1 p.2
              (processed ++ s :: rest))
          ∧ (∀ t ∈ processed ++ s :: rest, (alookup out t.emp_id).isSome = true) := by
      intro acc1 hc1 hk1 hsk
      have hbumpfst : ∀ p : Nat × EmpStats,
          ((fun p => if p.1 = s.emp_id then
            (p.1, bumpShift durations festivity_map s p.2) else p) p).1 = p.1 := by
        intro p
        by_cases h : p.1 = s.emp_id <;> simp [h]
      have hkeys2 : ∀ x : Nat,
          (alookup (acc1.map fun p =>
            if p.1 = s.emp_id then
              (p.1, bumpShift durations festivity_map s p.2) else p) x).isSome = true
          ↔ (alookup acc1 x).isSome = true := by
        intro x
        rw [alookup_isSome_iff, alookup_isSome_iff,
          alookup_map_fst_preserving _ hbumpfst]
      have hc2 : ∀ p ∈ (acc1.map fun p =>
          if p.1 = s.emp_id then
            (p.1, bumpShift durations festivity_map s p.2) else p),
          countsMatch festivity_map durations p.1 p.2 (processed ++ [s]) := by
        intro p2 hp2
        rcases List.mem_map.mp hp2 with ⟨p1, hp1, heq⟩
        by_cases hpk : p1.1 = s.emp_id
        · rw [if_pos hpk] at heq
          rw [← heq]
          exact countsMatch_bump festivity_map durations s processed p1.1 p1.2
            (hc1 p1 hp1) hpk
        · rw [if_neg hpk] at heq
          rw [← heq]
          exact countsMatch_skip festivity_map durations s processed p1.1 p1.2
            (hc1 p1 hp1) hpk
      have hk2 : ∀ t ∈ processed ++ [s],
          (alookup (acc1.map fun p =>
            if p.1 = s.emp_id then
              (p.1, bumpShift durations festivity_map s p.2) else p)
            t.emp_id).isSome = true := by
        intro t ht
        rcases List.mem_append.mp ht with ht' | ht'
        · exact (hkeys2 _).mpr (hk1 t ht')
        · have : t = s := List.mem_singleton.mp ht'
          subst this
          exact (hkeys2 _).mpr hsk
      rcases ih (processed ++ [s]) _ hc2 hk2
          (fun t ht => hfind t (List.mem_cons_of_mem s ht)) with
        ⟨out, hfold, hcounts', hkeys'⟩
      refine ⟨out, hfold, ?_, ?_⟩
      · intro p hp
        have hres := hcounts' p hp
        rwa [List.append_assoc, List.singleton_append] at hres
      · intro t ht
        apply hkeys'
        rwa [List.append_assoc, List.singleton_append]
    by_cases hs : (alookup acc s.emp_id).isSome = true
    · have hstep : statsStep durations festivity_map all_employees acc s
          = some (acc.map fun p =>
              if p.1 = s.emp_id then
                (p.1, bumpShift durations festivity_map s p.2) else p) := by
        unfold statsStep
        dsimp only
        rw [if_pos hs]
      rcases hcont acc hcounts hkeys hs with ⟨out, hfold, h1, h2⟩
      refine ⟨out, ?_, h1, h2⟩
      rw [List.foldlM_cons, hstep]
      exact hfold
    · have hnone : alookup acc s.emp_id = none :=
        Option.not_isSome_iff_eq_none.mp hs
      cases hfe : all_employees.find? fun e => e.id == s.emp_id with
      | none =>
        have hcontra := hfind s (List.mem_cons_self s rest)
        rw [hfe] at hcontra
        simp at hcontra
      | some e =>
        have hstep : statsStep durations festivity_map all_employees acc s
            = some ((acc ++ [(s.emp_id, (⟨s.emp_name, 0, 0, 0, 0,
                e.target_hours, e.accumulated_hours⟩ : EmpStats))]).map
                  fun p : Nat × EmpStats =>
                    if p.1 = s.emp_id then
                      (p.1, bumpShift durations festivity_map s p.2) else p) := by
          unfold statsStep
          dsimp only
          rw [if_neg hs, hfe]
        have hne : ∀ t ∈ processed, t.emp_id ≠ s.emp_id := by
          intro t ht hteq
          have := hkeys t ht
          rw [hteq, hnone] at this
          simp at this
        have hc1 : ∀ p ∈ acc ++ [(s.emp_id, (⟨s.emp_name, 0, 0, 0, 0,
            e.target_hours, e.accumulated_hours⟩ : EmpStats))],
            countsMatch festivity_map durations p.1 p.2 processed := by
          intro p hp
          rcases List.mem_append.mp hp with hp' | hp'
          · exact hcounts p hp'
          · have : p = (s.emp_id, (⟨s.emp_name, 0, 0, 0, 0,
                e.target_hours, e.accumulated_hours⟩ : EmpStats)) :=
              List.mem_singleton.mp hp'
            subst this
            exact countsMatch_zero festivity_map durations processed s.emp_id
              s.emp_name e.target_hours e.accumulated_hours hne
        have hk1 : ∀ t ∈ processed,
            (alookup (acc ++ [(s.emp_id, (⟨s.emp_name, 0, 0, 0, 0,
              e.target_hours, e.accumulated_hours⟩ : EmpStats))]) t.emp_id).isSome
              = true := by
          intro t ht
          have := hkeys t ht
          cases hv : alookup acc t.emp_id with
          | none => rw [hv] at this; simp at this
          | some v =>
            rw [alookup_append_some acc _ t.emp_id v hv]
            rfl
        have hsk : (alookup (acc ++ [(s.emp_id, (⟨s.emp_name, 0, 0, 0, 0,
            e.target_hours, e.accumulated_hours⟩ : EmpStats))]) s.emp_id).isSome
              = true := by
          rw [alookup_append_none acc _ s.emp_id hnone, alookup_cons, if_pos rfl]
          rfl
        rcases hcont _ hc1 hk1 hsk with ⟨out, hfold, h1, h2⟩
        refine ⟨out, ?_, h1, h2⟩
        rw [List.foldlM_cons, hstep]
        exact hfold

theorem alookup_append_none_left {κ β : Type} [DecidableEq κ]
    (l1 l2 : List (κ × β)) (k : κ) (h : alookup (l1 ++ l2) k = none) :
    alookup l1 k = none := by
  cases hv : alookup l1 k with
  | none => rfl
  | some v =>
    rw [alookup_append_some l1 l2 k v hv] at h
    cases h

theorem fillZeroStats_counts (festivity_map : Festivities)
    (durations : ShiftType → Int) (shifts : List ShiftRow) :
    ∀ (emps : List Emp) (stats : List (Nat × EmpStats)),
      (∀ p ∈ stats, countsMatch festivity_map durations p.1 p.2 shifts) →
      (∀ eid : Nat, alookup stats eid = none → ∀ t ∈ shifts, t.emp_id ≠ eid) →
      ∀ p ∈ fillZeroStats emps stats,
        countsMatch festivity_map durations p.1 p.2 shifts := by
  intro emps
  induction emps with
  | nil =>
    intro stats hc _
    simpa [fillZeroStats] using hc
  | cons e es ih =>
    intro stats hc hn
    have hrec : fillZeroStats (e :: es) stats
        = fillZeroStats es (if (alookup stats e.id).isSome then stats
            else stats ++ [(e.id, ⟨e.name, 0, 0, 0, 0,
              e.target_hours, e.accumulated_hours⟩)]) := by
      unfold fillZeroStats
      rw [List.foldl_cons]
    rw [hrec]
    by_cases hs : (alookup stats e.id).isSome
    · rw [if_pos hs]
      exact ih stats hc hn
    · rw [if_neg hs]
      have hnone : alookup stats e.id = none := Option.not_isSome_iff_eq_none.mp hs
      refine ih _ ?_ ?_
      · intro p hp
        rcases List.mem_append.mp hp with hp' | hp'
        · exact hc p hp'
        · have : p = (e.id, (⟨e.name, 0, 0, 0, 0,
              e.target_hours, e.accumulated_hours⟩ : EmpStats)) :=
            List.mem_singleton.mp hp'
          subst this
          refine countsMatch_zero festivity_map durations shifts e.id
            e.name e.target_hours e.accumulated_hours ?_
          intro t ht
          exact hn e.id hnone t ht
      · intro eid hnone' t ht
        exact hn eid (alookup_append_none_left _ _ _ hnone') t ht

/-- C8: in the statistics aggregation of `show_stats`, a shift is counted as
festive exactly when its date carries a festivity override with
`is_working_day = false`; a shift on a date with no override entry, or with an
override of `true`, is counted as normal — for the shift counts and for the
hour totals alike.  Under the join guarantee that every shift's employee
exists, the aggregation succeeds and every produced row's festive counters
total exactly that employee's festive shifts and hours, and its normal
counters all the others. -/
theorem c8_statistics_festive_split (shifts : List ShiftRow)
    (festivity_map : Festivities) (durations : ShiftType → Int)
    (all_employees : List Emp)
    (hfind : ∀ t ∈ shifts,
      (all_employees.find? fun e => e.id == t.emp_id).isSome = true) :
    (∀ d : Date, isFestive festivity_map d = true
        ↔ alookup festivity_map d = some false)
    ∧ ∃ stats, show_stats shifts festivity_map durations all_employees = some stats
        ∧ ∀ p ∈ stats, countsMatch festivity_map durations p.1 p.2 shifts := by
  constructor
  · intro d
    unfold isFestive
    cases h : alookup festivity_map d with
    | none => simp
    | some b => cases b <;> simp
  · rcases statsFold festivity_map durations all_employees shifts [] []
        (by intro p hp; cases hp) (by intro t ht; cases ht) hfind with
      ⟨out, hfold, hcounts, hkeys⟩
    refine ⟨fillZeroStats all_employees out, ?_, ?_⟩
    · unfold show_stats
      rw [hfold]
    · refine fillZeroStats_counts festivity_map durations shifts all_employees out
        ?_ ?_
      · intro p hp
        have := hcounts p hp
        simpa using this
      · intro eid hnone t ht hteq
        have hk := hkeys t (by simpa using ht)
        rw [hteq, hnone] at hk
        simp at hk

/-- Data for the C8 witness: one employee with a festive shift on January 1
(override `false`) and a normal shift on January 2 (no override). -/
def c8Shifts : List ShiftRow :=
  [⟨1, ⟨2025, 1, 1⟩, .Night, 1, "A"⟩, ⟨2, ⟨2025, 1, 2⟩, .Night, 1, "A"⟩]

theorem c8_statistics_festive_split_witness :
    (∀ t ∈ c8Shifts,
      (([⟨1, "A", 160, 0, [], 0⟩] : List Emp).find? fun e => e.id == t.emp_id).isSome
        = true)
    ∧ ((∀ d : Date, isFestive [(⟨2025, 1, 1⟩, false)] d = true
          ↔ alookup [(⟨2025, 1, 1⟩, false)] d = some false)
        ∧ ∃ stats, show_stats c8Shifts [(⟨2025, 1, 1⟩, false)] defaultDurations
              [⟨1, "A", 160, 0, [], 0⟩] = some stats
            ∧ ∀ p ∈ stats, countsMatch [(⟨2025, 1, 1⟩, false)] defaultDurations
                p.1 p.2 c8Shifts) :=
  ⟨by decide,
    c8_statistics_festive_split c8Shifts [(⟨2025, 1, 1⟩, false)] defaultDurations
      [⟨1, "A", 160, 0, [], 0⟩] (by decide)⟩

/-- Total assigned hours over the whole `emp_map` ledger. -/
def sumAssigned (em : EmpMap) : Int :=
  (em.map fun p => p.2.assigned_hours).sum

theorem adjustAssigned_keys (em : EmpMap) (eid : Nat) (delta : Int) :
    (adjustAssigned em eid delta).map Prod.fst = em.map Prod.fst := by
  unfold adjustAssigned
  refine alookup_map_fst_preserving _ ?_ em
  intro p
  by_cases h : p.1 = eid <;> simp [h]

theorem adjustAssigned_not_mem (em : EmpMap) (eid : Nat) (delta : Int)
    (h : eid ∉ em.map Prod.fst) : adjustAssigned em eid delta = em := by
  induction em with
  | nil => rfl
  | cons p ps ih =>
    simp only [List.map_cons, List.mem_cons, not_or] at h
    unfold adjustAssigned
    simp only [List.map_cons]
    rw [if_neg (Ne.symm h.1)]
    have := ih h.2
    unfold adjustAssigned at this
    rw [this]

theorem sumAssigned_adjust (em : EmpMap) (eid : Nat) (delta : Int)
    (hnd : (em.map Prod.fst).Nodup) (hmem : eid ∈ em.map Prod.fst) :
    sumAssigned (adjustAssigned em eid delta) = sumAssigned em + delta := by
  induction em with
  | nil => cases hmem
  | cons p ps ih =>
    simp only [List.map_cons, List.nodup_cons] at hnd
    simp only [List.map_cons, List.mem_cons] at hmem
    unfold adjustAssigned
    simp only [List.map_cons]
    by_cases hp : p.1 = eid
    · rw [if_pos hp]
      have hnot : eid ∉ ps.map Prod.fst := hp ▸ hnd.1
      have hps : adjustAssigned ps eid delta = ps :=
        adjustAssigned_not_mem ps eid delta hnot
      unfold adjustAssigned at hps
      rw [hps]
      unfold sumAssigned
      simp only [List.map_cons, List.sum_cons]
      ring
    · rw [if_neg hp]
      have hmem' : eid ∈ ps.map Prod.fst := by
        rcases hmem with h | h
        · exact absurd h.symm hp
        · exact h
      have := ih hnd.2 hmem'
      unfold adjustAssigned at this
      unfold sumAssigned at this ⊢
      simp only [List.map_cons, List.sum_cons]
      rw [this]
      ring

theorem findReplacement1_mem (em : EmpMap) (absences : List Absence) (d : Date)
    (assigned_ids : List Nat) (shift : ShiftType) (c : Nat)
    (h : findReplacement1 em absences d assigned_ids shift = some c) :
    c ∈ em.map Prod.fst := by
  rcases find1_aux absences d assigned_ids shift em (-1000000000) none with
    ⟨hfold, _⟩ | ⟨l1, c', cd, l2, heq, _, _, _, hfold, _, _⟩
  · unfold findReplacement1 at h
    rw [hfold] at h
    cases h
  · unfold findReplacement1 at h
    rw [hfold] at h
    have hcc : c' = c := Option.some.inj h
    subst hcc
    rw [heq]
    simp

theorem findReplacement2_mem (em : EmpMap) (absences : List Absence) (d : Date)
    (assigned_ids : List Nat) (c : Nat)
    (h : findReplacement2 em absences d assigned_ids = some c) :
    c ∈ em.map Prod.fst := by
  rcases find2_aux absences d assigned_ids em (-1000000000) none with
    ⟨hfold, _⟩ | ⟨l1, c', cd, l2, heq, _, _, _, _, hfold, _, _⟩
  · unfold findReplacement2 at h
    rw [hfold] at h
    cases h
  · unfold findReplacement2 at h
    rw [hfold] at h
    have hcc : c' = c := Option.some.inj h
    subst hcc
    rw [heq]
    simp

theorem alookup_mem {κ β : Type} [DecidableEq κ] (l : List (κ × β)) (k : κ) (v : β)
    (h : alookup l k = some v) : (k, v) ∈ l := by
  induction l with
  | nil => cases h
  | cons p ps ih =>
    rw [alookup_cons] at h
    split at h
    · rename_i hpk
      have hv := Option.some.inj h
      have hkv : (k, v) = p := by rw [← hpk, ← hv]
      rw [hkv]
      exact List.mem_cons_self p ps
    · right
      exact ih h

theorem setA_mem {κ β : Type} [DecidableEq κ] (l : List (κ × β)) (k : κ) (v : β)
    (q : κ × β) (hq : q ∈ setA l k v) : q ∈ l ∨ q = (k, v) := by
  induction l with
  | nil => cases hq
  | cons p ps ih =>
    unfold setA at hq
    split at hq
    · rcases List.mem_cons.mp hq with rfl | hq'
      · exact Or.inr rfl
      · exact Or.inl (List.mem_cons_of_mem p hq')
    · rcases List.mem_cons.mp hq with rfl | hq'
      · exact Or.inl (List.mem_cons_self _ _)
      · rcases ih hq' with h | h
        · exact Or.inl (List.mem_cons_of_mem p h)
        · exact Or.inr h

theorem pass1Step_preserves (absences : List Absence) (d : Date) (shift : ShiftType)
    (dur : Int) (assigned_ids : List Nat) (st : EmpMap × Nat) (r : SRec)
    (hnd : (st.1.map Prod.fst).Nodup) (hr : r.emp_id ∈ st.1.map Prod.fst) :
    sumAssigned (pass1Step absences d shift dur assigned_ids st r).1.1
        = sumAssigned st.1
    ∧ (pass1Step absences d shift dur assigned_ids st r).1.1.map Prod.fst
        = st.1.map Prod.fst
    ∧ (pass1Step absences d shift dur assigned_ids st r).2.emp_id
        ∈ st.1.map Prod.fst := by
  by_cases habs : is_employee_absent absences r.emp_id d
  · cases hf : findReplacement1 st.1 absences d assigned_ids shift with
    | some c =>
      have heq : pass1Step absences d shift dur assigned_ids st r
          = ((adjustAssigned (adjustAssigned st.1 r.emp_id (-dur)) c dur, st.2 + 1),
             ⟨r.shift_id, c,
              ((alookup (adjustAssigned (adjustAssigned st.1 r.emp_id (-dur)) c dur)
                c).map EmpData.name).getD ""⟩) := by
        unfold pass1Step
        rw [if_pos habs, hf]
      rw [heq]
      have hkeys1 : (adjustAssigned st.1 r.emp_id (-dur)).map Prod.fst
          = st.1.map Prod.fst := adjustAssigned_keys _ _ _
      have hkeys2 : (adjustAssigned (adjustAssigned st.1 r.emp_id (-dur)) c dur).map
          Prod.fst = st.1.map Prod.fst := by
        rw [adjustAssigned_keys, hkeys1]
      have hcmem : c ∈ st.1.map Prod.fst := findReplacement1_mem _ _ _ _ _ _ hf
      refine ⟨?_, hkeys2, hcmem⟩
      rw [sumAssigned_adjust _ c dur (by rw [hkeys1]; exact hnd)
        (by rw [hkeys1]; exact hcmem)]
      rw [sumAssigned_adjust _ r.emp_id (-dur) hnd hr]
      ring
    | none =>
      have heq : pass1Step absences d shift dur assigned_ids st r = (st, r) := by
        unfold pass1Step
        rw [if_pos habs, hf]
      rw [heq]
      exact ⟨rfl, rfl, hr⟩
  · have heq : pass1Step absences d shift dur assigned_ids st r = (st, r) := by
      unfold pass1Step
      rw [if_neg habs]
    rw [heq]
    exact ⟨rfl, rfl, hr⟩

theorem pass2Step_preserves (absences : List Absence) (d : Date) (dur : Int)
    (assigned_ids : List Nat) (st : EmpMap × Nat) (r : SRec)
    (hnd : (st.1.map Prod.fst).Nodup) (hr : r.emp_id ∈ st.1.map Prod.fst) :
    sumAssigned (pass2Step absences d dur assigned_ids st r).1.1
        = sumAssigned st.1
    ∧ (pass2Step absences d dur assigned_ids st r).1.1.map Prod.fst
        = st.1.map Prod.fst
    ∧ (pass2Step absences d dur assigned_ids st r).2.emp_id
        ∈ st.1.map Prod.fst := by
  by_cases hrem : remainingOf ((alookup st.1 r.emp_id).getD ⟨"", 0, 0, [], 0⟩) < -5
  · cases hf : findReplacement2 st.1 absences d assigned_ids with
    | some c =>
      have heq : pass2Step absences d dur assigned_ids st r
          = ((adjustAssigned (adjustAssigned st.1 r.emp_id (-dur)) c dur, st.2 + 1),
             ⟨r.shift_id, c,
              ((alookup (adjustAssigned (adjustAssigned st.1 r.emp_id (-dur)) c dur)
                c).map EmpData.name).getD ""⟩) := by
        unfold pass2Step
        dsimp only
        rw [if_pos hrem, hf]
      rw [heq]
      have hkeys1 : (adjustAssigned st.1 r.emp_id (-dur)).map Prod.fst
          = st.1.map Prod.fst := adjustAssigned_keys _ _ _
      have hkeys2 : (adjustAssigned (adjustAssigned st.1 r.emp_id (-dur)) c dur).map
          Prod.fst = st.1.map Prod.fst := by
        rw [adjustAssigned_keys, hkeys1]
      have hcmem : c ∈ st.1.map Prod.fst := findReplacement2_mem _ _ _ _ _ hf
      refine ⟨?_, hkeys2, hcmem⟩
      rw [sumAssigned_adjust _ c dur (by rw [hkeys1]; exact hnd)
        (by rw [hkeys1]; exact hcmem)]
      rw [sumAssigned_adjust _ r.emp_id (-dur) hnd hr]
      ring
    | none =>
      have heq : pass2Step absences d dur assigned_ids st r = (st, r) := by
        unfold pass2Step
        dsimp only
        rw [if_pos hrem, hf]
      rw [heq]
      exact ⟨rfl, rfl, hr⟩
  · have heq : pass2Step absences d dur assigned_ids st r = (st, r) := by
      unfold pass2Step
      dsimp only
      rw [if_neg hrem]
    rw [heq]
    exact ⟨rfl, rfl, hr⟩

theorem pass1Recs_preserves (absences : List Absence) (d : Date) (shift : ShiftType)
    (dur : Int) (assigned_ids : List Nat) :
    ∀ (recs : SlotRecs) (st : EmpMap × Nat),
      (st.1.map Prod.fst).Nodup →
      (∀ r ∈ recs, r.emp_id ∈ st.1.map Prod.fst) →
      sumAssigned (pass1Recs absences d shift dur assigned_ids st recs).1.1
          = sumAssigned st.1
      ∧ (pass1Recs absences d shift dur assigned_ids st recs).1.1.map Prod.fst
          = st.1.map Prod.fst
      ∧ (∀ r' ∈ (pass1Recs absences d shift dur assigned_ids st recs).2,
          r'.emp_id ∈ st.1.map Prod.fst) := by
  intro recs
  induction recs with
  | nil =>
    intro st _ _
    exact ⟨rfl, rfl, by intro r' h; cases h⟩
  | cons r rs ih =>
    intro st hnd hmem
    have hstep := pass1Step_preserves absences d shift dur assigned_ids st r hnd
      (hmem r (List.mem_cons_self r rs))
    have hnd1 : ((pass1Step absences d shift dur assigned_ids st r).1.1.map
        Prod.fst).Nodup := by
      rw [hstep.2.1]; exact hnd
    have hmem1 : ∀ q ∈ rs, q.emp_id ∈ (pass1Step absences d shift dur assigned_ids
        st r).1.1.map Prod.fst := by
      intro q hq
      rw [hstep.2.1]
      exact hmem q (List.mem_cons_of_mem r hq)
    have hrest := ih (pass1Step absences d shift dur assigned_ids st r).1 hnd1 hmem1
    have hshape : pass1Recs absences d shift dur assigned_ids st (r :: rs)
        = ((pass1Recs absences d shift dur assigned_ids
            (pass1Step absences d shift dur assigned_ids st r).1 rs).1,
           (pass1Step absences d shift dur assigned_ids st r).2
             :: (pass1Recs absences d shift dur assigned_ids
                  (pass1Step absences d shift dur assigned_ids st r).1 rs).2) := rfl
    rw [hshape]
    refine ⟨?_, ?_, ?_⟩
    · rw [hrest.1, hstep.1]
    · rw [hrest.2.1, hstep.2.1]
    · intro r' hr'
      rcases List.mem_cons.mp hr' with rfl | hr''
      · exact hstep.2.2
      · have := hrest.2.2 r' hr''
        rw [hstep.2.1] at this
        exact this

theorem pass2Recs_preserves (absences : List Absence) (d : Date) (dur : Int)
    (assigned_ids : List Nat) :
    ∀ (recs : SlotRecs) (st : EmpMap × Nat),
      (st.1.map Prod.fst).Nodup →
      (∀ r ∈ recs, r.emp_id ∈ st.1.map Prod.fst) →
      sumAssigned (pass2Recs absences d dur assigned_ids st recs).1.1
          = sumAssigned st.1
      ∧ (pass2Recs absences d dur assigned_ids st recs).1.1.map Prod.fst
          = st.1.map Prod.fst
      ∧ (∀ r' ∈ (pass2Recs absences d dur assigned_ids st recs).2,
          r'.emp_id ∈ st.1.map Prod.fst) := by
  intro recs
  induction recs with
  | nil =>
    intro st _ _
    exact ⟨rfl, rfl, by intro r' h; cases h⟩
  | cons r rs ih =>
    intro st hnd hmem
    have hstep := pass2Step_preserves absences d dur assigned_ids st r hnd
      (hmem r (List.mem_cons_self r rs))
    have hnd1 : ((pass2Step absences d dur assigned_ids st r).1.1.map
        Prod.fst).Nodup := by
      rw [hstep.2.1]; exact hnd
    have hmem1 : ∀ q ∈ rs, q.emp_id ∈ (pass2Step absences d dur assigned_ids
        st r).1.1.map Prod.fst := by
      intro q hq
      rw [hstep.2.1]
      exact hmem q (List.mem_cons_of_mem r hq)
    have hrest := ih (pass2Step absences d dur assigned_ids st r).1 hnd1 hmem1
    have hshape : pass2Recs absences d dur assigned_ids st (r :: rs)
        = ((pass2Recs absences d dur assigned_ids
            (pass2Step absences d dur assigned_ids st r).1 rs).1,
           (pass2Step absences d dur assigned_ids st r).2
             :: (pass2Recs absences d dur assigned_ids
                  (pass2Step absences d dur assigned_ids st r).1 rs).2) := rfl
    rw [hshape]
    refine ⟨?_, ?_, ?_⟩
    · rw [hrest.1, hstep.1]
    · rw [hrest.2.1, hstep.2.1]
    · intro r' hr'
      rcases List.mem_cons.mp hr' with rfl | hr''
      · exact hstep.2.2
      · have := hrest.2.2 r' hr''
        rw [hstep.2.1] at this
        exact this

theorem pass1Day_preserves (absences : List Absence)
    (shift_durations : ShiftType → Int) (d : Date) (K : List Nat) (S : Int)
    (hndK : K.Nodup) (st : EmpMap × Nat) (ds : DaySched)
    (h1 : st.1.map Prod.fst = K) (h2 : sumAssigned st.1 = S)
    (h3 : ∀ q ∈ ds, ∀ r ∈ q.2, r.emp_id ∈ K) :
    (pass1Day absences shift_durations d st ds).1.1.map Prod.fst = K
    ∧ sumAssigned (pass1Day absences shift_durations d st ds).1.1 = S
    ∧ (∀ q ∈ (pass1Day absences shift_durations d st ds).2,
        ∀ r ∈ q.2, r.emp_id ∈ K) := by
  unfold pass1Day
  refine foldl_preserve
    (fun b : (EmpMap × Nat) × DaySched =>
      b.1.1.map Prod.fst = K ∧ sumAssigned b.1.1 = S
        ∧ ∀ q ∈ b.2, ∀ r ∈ q.2, r.emp_id ∈ K)
    _ shiftTypesList (st, ds) ⟨h1, h2, h3⟩ ?_
  intro b shift hb
  obtain ⟨hb1, hb2, hb3⟩ := hb
  cases hl : alookup b.2 shift with
  | none =>
    simp only [hl]
    exact ⟨hb1, hb2, hb3⟩
  | some recs =>
    simp only [hl]
    have hmem : (shift, recs) ∈ b.2 := alookup_mem _ _ _ hl
    have hrecsK : ∀ r ∈ recs, r.emp_id ∈ b.1.1.map Prod.fst := by
      intro r hr
      rw [hb1]
      exact hb3 _ hmem r hr
    have hrecs := pass1Recs_preserves absences d shift (shift_durations shift)
      (recs.map SRec.emp_id) recs b.1 (by rw [hb1]; exact hndK) hrecsK
    unfold pass1Slot
    refine ⟨?_, ?_, ?_⟩
    · rw [hrecs.2.1, hb1]
    · rw [hrecs.1, hb2]
    · intro q hq r hr
      rcases setA_mem b.2 shift _ q hq with hq' | hq'
      · exact hb3 q hq' r hr
      · subst hq'
        have := hrecs.2.2 r hr
        rw [hb1] at this
        exact this

theorem pass2Day_preserves (absences : List Absence)
    (shift_durations : ShiftType → Int) (d : Date) (K : List Nat) (S : Int)
    (hndK : K.Nodup) (st : EmpMap × Nat) (ds : DaySched)
    (h1 : st.1.map Prod.fst = K) (h2 : sumAssigned st.1 = S)
    (h3 : ∀ q ∈ ds, ∀ r ∈ q.2, r.emp_id ∈ K) :
    (pass2Day absences shift_durations d st ds).1.1.map Prod.fst = K
    ∧ sumAssigned (pass2Day absences shift_durations d st ds).1.1 = S
    ∧ (∀ q ∈ (pass2Day absences shift_durations d st ds).2,
        ∀ r ∈ q.2, r.emp_id ∈ K) := by
  unfold pass2Day
  refine foldl_preserve
    (fun b : (EmpMap × Nat) × DaySched =>
      b.1.1.map Prod.fst = K ∧ sumAssigned b.1.1 = S
        ∧ ∀ q ∈ b.2, ∀ r ∈ q.2, r.emp_id ∈ K)
    _ shiftTypesList (st, ds) ⟨h1, h2, h3⟩ ?_
  intro b shift hb
  obtain ⟨hb1, hb2, hb3⟩ := hb
  cases hl : alookup b.2 shift with
  | none =>
    simp only [hl]
    exact ⟨hb1, hb2, hb3⟩
  | some recs =>
    simp only [hl]
    have hmem : (shift, recs) ∈ b.2 := alookup_mem _ _ _ hl
    have hrecsK : ∀ r ∈ recs, r.emp_id ∈ b.1.1.map Prod.fst := by
      intro r hr
      rw [hb1]
      exact hb3 _ hmem r hr
    have hrecs := pass2Recs_preserves absences d (shift_durations shift)
      (recs.map SRec.emp_id) recs b.1 (by rw [hb1]; exact hndK) hrecsK
    unfold pass2Slot
    refine ⟨?_, ?_, ?_⟩
    · rw [hrecs.2.1, hb1]
    · rw [hrecs.1, hb2]
    · intro q hq r hr
      rcases setA_mem b.2 shift _ q hq with hq' | hq'
      · exact hb3 q hq' r hr
      · subst hq'
        have := hrecs.2.2 r hr
        rw [hb1] at this
        exact this

theorem pass1_preserves (absences : List Absence)
    (shift_durations : ShiftType → Int) (year month : Nat) (K : List Nat) (S : Int)
    (hndK : K.Nodup) (st : EmpMap × Nat) (sched : Sched)
    (h1 : st.1.map Prod.fst = K) (h2 : sumAssigned st.1 = S)
    (h3 : ∀ p ∈ sched, ∀ q ∈ p.2, ∀ r ∈ q.2, r.emp_id ∈ K) :
    (pass1 absences shift_durations year month st sched).1.1.map Prod.fst = K
    ∧ sumAssigned (pass1 absences shift_durations year month st sched).1.1 = S
    ∧ (∀ p ∈ (pass1 absences shift_durations year month st sched).2,
        ∀ q ∈ p.2, ∀ r ∈ q.2, r.emp_id ∈ K) := by
  unfold pass1
  refine foldl_preserve
    (fun b : (EmpMap × Nat) × Sched =>
      b.1.1.map Prod.fst = K ∧ sumAssigned b.1.1 = S
        ∧ ∀ p ∈ b.2, ∀ q ∈ p.2, ∀ r ∈ q.2, r.emp_id ∈ K)
    _ _ (st, sched) ⟨h1, h2, h3⟩ ?_
  intro b i hb
  obtain ⟨hb1, hb2, hb3⟩ := hb
  cases hl : alookup b.2 (⟨year, month, i + 1⟩ : Date) with
  | none =>
    simp only [hl]
    exact ⟨hb1, hb2, hb3⟩
  | some ds =>
    simp only [hl]
    have hmem : ((⟨year, month, i + 1⟩ : Date), ds) ∈ b.2 := alookup_mem _ _ _ hl
    have hday := pass1Day_preserves absences shift_durations ⟨year, month, i + 1⟩
      K S hndK b.1 ds hb1 hb2 (fun q hq r hr => hb3 _ hmem q hq r hr)
    refine ⟨hday.1, hday.2.1, ?_⟩
    intro p hp q hq r hr
    rcases setA_mem b.2 _ _ p hp with hp' | hp'
    · exact hb3 p hp' q hq r hr
    · subst hp'
      exact hday.2.2 q hq r hr

theorem pass2_preserves (absences : List Absence)
    (shift_durations : ShiftType → Int) (year month : Nat) (K : List Nat) (S : Int)
    (hndK : K.Nodup) (st : EmpMap × Nat) (sched : Sched)
    (h1 : st.1.map Prod.fst = K) (h2 : sumAssigned st.1 = S)
    (h3 : ∀ p ∈ sched, ∀ q ∈ p.2, ∀ r ∈ q.2, r.emp_id ∈ K) :
    (pass2 absences shift_durations year month st sched).1.1.map Prod.fst = K
    ∧ sumAssigned (pass2 absences shift_durations year month st sched).1.1 = S
    ∧ (∀ p ∈ (pass2 absences shift_durations year month st sched).2,
        ∀ q ∈ p.2, ∀ r ∈ q.2, r.emp_id ∈ K) := by
  unfold pass2
  refine foldl_preserve
    (fun b : (EmpMap × Nat) × Sched =>
      b.1.1.map Prod.fst = K ∧ sumAssigned b.1.1 = S
        ∧ ∀ p ∈ b.2, ∀ q ∈ p.2, ∀ r ∈ q.2, r.emp_id ∈ K)
    _ _ (st, sched) ⟨h1, h2, h3⟩ ?_
  intro b i hb
  obtain ⟨hb1, hb2, hb3⟩ := hb
  cases hl : alookup b.2 (⟨year, month, i + 1⟩ : Date) with
  | none =>
    simp only [hl]
    exact ⟨hb1, hb2, hb3⟩
  | some ds =>
    simp only [hl]
    have hmem : ((⟨year, month, i + 1⟩ : Date), ds) ∈ b.2 := alookup_mem _ _ _ hl
    have hday := pass2Day_preserves absences shift_durations ⟨year, month, i + 1⟩
      K S hndK b.1 ds hb1 hb2 (fun q hq r hr => hb3 _ hmem q hq r hr)
    refine ⟨hday.1, hday.2.1, ?_⟩
    intro p hp q hq r hr
    rcases setA_mem b.2 _ _ p hp with hp' | hp'
    · exact hb3 p hp' q hq r hr
    · subst hp'
      exact hday.2.2 q hq r hr

theorem seedAssigned_keys (shift_durations : ShiftType → Int) (sched : Sched)
    (em : EmpMap) :
    (seedAssigned shift_durations sched em).map Prod.fst = em.map Prod.fst := by
  unfold seedAssigned
  refine foldl_preserve
    (fun x : EmpMap => x.map Prod.fst = em.map Prod.fst) _ _ _ rfl ?_
  intro b p hb
  refine foldl_preserve
    (fun x : EmpMap => x.map Prod.fst = em.map Prod.fst) _ _ _ hb ?_
  intro b2 q hb2
  refine foldl_preserve
    (fun x : EmpMap => x.map Prod.fst = em.map Prod.fst) _ _ _ hb2 ?_
  intro b3 r hb3
  split
  · rw [adjustAssigned_keys]
    exact hb3
  · exact hb3

theorem initialEmpMap_keys (l : List Emp) :
    (initialEmpMap l).map Prod.fst = l.map Emp.id := by
  unfold initialEmpMap
  rw [List.map_map]
  rfl

/-- C10: every replacement performed by the Roster Repairer, in either pass,
debits the replaced employee and credits the replacement by exactly the shift
duration, so each pass-1 and pass-2 step leaves the total assigned hours of
the ledger unchanged, and over a whole repair invocation the ledger total
equals its seeded value.  The hypotheses reflect database invariants: employee
ids are unique (primary key) and every roster record's employee exists (the
SQL join of `get_shifts_for_month`). -/
theorem c10_repair_preserves_total_hours (year month : Nat) (sched : Sched)
    (employees_data : List Emp) (absences : List Absence)
    (shift_durations : ShiftType → Int)
    (hnd : (employees_data.map Emp.id).Nodup)
    (hsub : ∀ p ∈ sched, ∀ q ∈ p.2, ∀ r ∈ q.2,
      r.emp_id ∈ employees_data.map Emp.id) :
    (∀ (d : Date) (shift : ShiftType) (dur : Int) (assigned_ids : List Nat)
        (st : EmpMap × Nat) (r : SRec),
      (st.1.map Prod.fst).Nodup → r.emp_id ∈ st.1.map Prod.fst →
      sumAssigned (pass1Step absences d shift dur assigned_ids st r).1.1
          = sumAssigned st.1
      ∧ sumAssigned (pass2Step absences d dur assigned_ids st r).1.1
          = sumAssigned st.1)
    ∧ sumAssigned (update_schedule year month sched employees_data absences
          shift_durations).emp_map
        = sumAssigned (seedAssigned shift_durations sched
            (initialEmpMap employees_data)) := by
  constructor
  · intro d shift dur assigned_ids st r hnd' hr
    exact ⟨(pass1Step_preserves absences d shift dur assigned_ids st r hnd' hr).1,
      (pass2Step_preserves absences d dur assigned_ids st r hnd' hr).1⟩
  · have hkeys0 : (seedAssigned shift_durations sched
        (initialEmpMap employees_data)).map Prod.fst = employees_data.map Emp.id := by
      rw [seedAssigned_keys, initialEmpMap_keys]
    have hp1 := pass1_preserves absences shift_durations year month
      (employees_data.map Emp.id)
      (sumAssigned (seedAssigned shift_durations sched (initialEmpMap employees_data)))
      hnd
      (seedAssigned shift_durations sched (initialEmpMap employees_data), 0) sched
      hkeys0 rfl hsub
    have hp2 := pass2_preserves absences shift_durations year month
      (employees_data.map Emp.id)
      (sumAssigned (seedAssigned shift_durations sched (initialEmpMap employees_data)))
      hnd
      (pass1 absences shift_durations year month
        (seedAssigned shift_durations sched (initialEmpMap employees_data), 0)
        sched).1
      (pass1 absences shift_durations year month
        (seedAssigned shift_durations sched (initialEmpMap employees_data), 0)
        sched).2
      hp1.1 hp1.2.1 hp1.2.2
    unfold update_schedule
    dsimp only
    exact hp2.2.1

/-- The concrete repair run of the C4 counterexample satisfies the database
invariants, so C10's conservation theorem applies to it. -/
theorem c10_repair_preserves_total_hours_witness :
    (c4Emps.map Emp.id).Nodup
    ∧ (∀ p ∈ c4Sched, ∀ q ∈ p.2, ∀ r ∈ q.2, r.emp_id ∈ c4Emps.map Emp.id)
    ∧ sumAssigned (update_schedule 2025 1 c4Sched c4Emps [] defaultDurations).emp_map
        = sumAssigned (seedAssigned defaultDurations c4Sched (initialEmpMap c4Emps)) :=
  ⟨by decide, by decide,
    (c10_repair_preserves_total_hours 2025 1 c4Sched c4Emps [] defaultDurations
      (by decide) (by decide)).2⟩

end ShiftManager
